import Mathlib

/-!
Verification of the kanban collaboration backend (projects, memberships,
boards, columns, tasks, notifications) against its natural-language
specification.  The TypeScript services are shallowly embedded: each
repository table becomes a list of rows, each service method becomes a
function from the database state to an updated state (or a typed error),
and outbound notification calls are collected as emitted events.
-/

namespace Kanban

/-- Project status column: the source uses the string values
active and deleted. -/
inductive ProjStatus
  | active
  | deleted
deriving DecidableEq, Repr

/-- ProjectRole enum from the project-member entity; the source checks only
for ADMIN, other roles are non-admin. -/
inductive ProjRole
  | admin
  | member
  | viewer
deriving DecidableEq, Repr

/-- Notification status column: unread, read or archived. -/
inductive NotifStatus
  | unread
  | read
  | archived
deriving DecidableEq, Repr

/-- Task priority enum; the source defaults to MEDIUM. -/
inductive Priority
  | low
  | medium
  | high
deriving DecidableEq, Repr

/-- Row of the projects table. -/
structure Project where
  id : Nat
  ownerId : Nat
  status : ProjStatus
deriving DecidableEq, Repr

/-- Row of the project-members join table. -/
structure ProjectMember where
  projectId : Nat
  userId : Nat
  role : ProjRole
  isActive : Bool
  leftAt : Option Nat
deriving DecidableEq, Repr

/-- Row of the users table (fields relevant to the lifecycle logic). -/
structure UserRow where
  id : Nat
  isActive : Bool
  deletedAt : Option Nat
deriving DecidableEq, Repr

/-- Row of the kanban-boards table. -/
structure Board where
  id : Nat
  projectId : Nat
  isActive : Bool
deriving DecidableEq, Repr

/-- Row of the kanban-columns table. -/
structure Column where
  id : Nat
  boardId : Nat
  isActive : Bool
deriving DecidableEq, Repr

/-- Row of the tasks table. -/
structure Task where
  id : Nat
  projectId : Nat
  boardId : Nat
  columnId : Nat
  createdById : Nat
  assigneeId : Option Nat
  title : String
  priority : Priority
  order : Nat
  deletedAt : Option Nat
deriving DecidableEq, Repr

/-- Row of the notifications table. -/
structure Notification where
  id : Nat
  userId : Nat
  projectId : Option Nat
  status : NotifStatus
deriving DecidableEq, Repr

/-- Row of the refresh-tokens table. -/
structure RefreshToken where
  id : Nat
  userId : Nat
  isRevoked : Bool
deriving DecidableEq, Repr

/-- The relational store: one list of rows per logical table. -/
structure DB where
  users : List UserRow
  projects : List Project
  members : List ProjectMember
  boards : List Board
  columns : List Column
  tasks : List Task
  notifications : List Notification
  tokens : List RefreshToken
deriving DecidableEq, Repr

/-- Typed failures thrown by the services (NestJS exception classes). -/
inductive ApiError
  | notFound (msg : String)
  | forbidden (msg : String)
  | conflict (msg : String)
  | badRequest (msg : String)
deriving DecidableEq, Repr

/-- Outbound notification-sink calls, recorded as events. -/
inductive NotifEvent
  | memberAdded (recipient projectId actor : Nat) (role : ProjRole)
  | memberRemoved (recipient projectId actor : Nat)
  | taskAssigned (recipient taskId actor : Nat)
  | taskUnassigned (recipient taskId actor : Nat)
  | taskCommented (recipient taskId actor : Nat)
deriving DecidableEq, Repr

/-- JavaScript value of type number-or-null-or-undefined, needed because the
task-update DTO distinguishes an absent assigneeId key (undefined) from an
explicit null and from a number. -/
inductive JsOptNat
  | undef
  | null
  | val (n : Nat)
deriving DecidableEq, Repr

/-- JavaScript truthiness of a number-or-null-or-undefined value:
undefined and null are falsy, and so is the number 0. -/
def JsOptNat.truthy : JsOptNat → Bool
  | .undef => false
  | .null => false
  | .val n => n != 0

/-- Numeric payload of a JsOptNat; only used under a truthiness guard. -/
def JsOptNat.get : JsOptNat → Nat
  | .val n => n
  | _ => 0

/-- JavaScript expression (m || -1) + 1 applied to the result of a SQL MAX
over the order column: NULL (empty column) and 0 are both falsy, so both
give -1 + 1 = 0; any other maximum m gives m + 1. -/
def jsNextOrder : Option Nat → Nat
  | none => 0
  | some 0 => 0
  | some (m + 1) => m + 2

/-- SQL MAX(task.order) over all tasks whose columnId matches (the source
query has no deletedAt filter). -/
def maxOrderIn (db : DB) (columnId : Nat) : Option Nat :=
  ((db.tasks.filter (fun t => t.columnId == columnId)).map (·.order)).max?

/-- Tasks sorted ascending by their order column, as returned by a find with
order ascending. -/
def sortByOrder (ts : List Task) : List Task :=
  ts.insertionSort (fun a b => a.order ≤ b.order)

/-- ProjectsService.checkProjectAccess: findOne the project by id (no status
filter); true when the requester owns it, otherwise true exactly when an
active membership row exists. -/
def psCheckProjectAccess (db : DB) (projectId userId : Nat) : Bool :=
  let project := db.projects.find? (fun p => p.id == projectId)
  if project.map (·.ownerId) == some userId then true
  else
    (db.members.find?
      (fun m => m.projectId == projectId && m.userId == userId && m.isActive)).isSome

/-- ProjectsService.isProjectAdmin: active membership row with role ADMIN. -/
def isProjectAdmin (db : DB) (projectId userId : Nat) : Bool :=
  (db.members.find?
      (fun m => m.projectId == projectId && m.userId == userId && m.isActive)).map
    (·.role) == some ProjRole.admin

/-- ProjectsService.findProjectById: findOne with id and status active,
NotFound when missing, then Forbidden when the requester has no access. -/
def findProjectById (db : DB) (id userId : Nat) : Except ApiError Project :=
  match db.projects.find? (fun p => p.id == id && p.status == ProjStatus.active) with
  | none => .error (.notFound "Project not found")
  | some project =>
    if psCheckProjectAccess db project.id userId then .ok project
    else .error (.forbidden "You do not have access to this project")

/-- ProjectsService.softDeleteProject: owner-only transactional cascade that
marks the project deleted, deactivates its active memberships (stamping
leftAt), deactivates its active boards, deactivates the active columns of
the project boards (the board list is re-read after the board update, with
no isActive filter), stamps deletedAt on its not-yet-deleted tasks and
archives its unread notifications.  The parameter now stands for the
current date. -/
def softDeleteProject (db : DB) (id userId now : Nat) : Except ApiError (DB × String) :=
  match findProjectById db id userId with
  | .error e => .error e
  | .ok project =>
    if project.ownerId != userId then
      .error (.forbidden "Only project owner can delete project")
    else
      let projects1 := db.projects.map (fun p =>
        if p.id == project.id then { p with status := ProjStatus.deleted } else p)
      let members1 := db.members.map (fun m =>
        if m.projectId == id && m.isActive then
          { m with isActive := false, leftAt := some now } else m)
      let boards1 := db.boards.map (fun b =>
        if b.projectId == id && b.isActive then { b with isActive := false } else b)
      let projBoards := boards1.filter (fun b => b.projectId == id)
      let columns1 :=
        if projBoards.isEmpty then db.columns
        else db.columns.map (fun c =>
          if (projBoards.map (·.id)).contains c.boardId && c.isActive then
            { c with isActive := false } else c)
      let tasks1 := db.tasks.map (fun t =>
        if t.projectId == id && t.deletedAt == none then
          { t with deletedAt := some now } else t)
      let notifs1 := db.notifications.map (fun n =>
        if n.projectId == some id && n.status == NotifStatus.unread then
          { n with status := NotifStatus.archived } else n)
      .ok ({ db with projects := projects1, members := members1, boards := boards1,
                     columns := columns1, tasks := tasks1, notifications := notifs1 },
           "Project and all related data soft deleted successfully")

/-- ProjectsService.deleteProject, legacy method of the service defined
together with softDeleteProject: it forwards to the soft variant. -/
def deleteProject (db : DB) (id userId now : Nat) : Except ApiError (DB × String) :=
  softDeleteProject db id userId now

/-- Older ProjectsService.deleteProject found in projects.service.ts: after
the same owner check it only flips the project status to deleted and saves,
with no cascade over members, boards, columns, tasks or notifications. -/
def deleteProjectLegacy (db : DB) (id userId : Nat) : Except ApiError (DB × String) :=
  match findProjectById db id userId with
  | .error e => .error e
  | .ok project =>
    if project.ownerId != userId then
      .error (.forbidden "Only project owner can delete project")
    else
      .ok ({ db with projects := db.projects.map (fun p =>
              if p.id == project.id then { p with status := ProjStatus.deleted } else p) },
           "Project deleted successfully")

/-- ProjectsService.addProjectMember: requires the acting user to be owner
or admin of the (active, accessible) project, requires the target user to
exist, fails Conflict when any membership row for the pair exists (the
lookup has no isActive filter), otherwise inserts an active membership and
notifies the added member. -/
def addProjectMember (db : DB) (projectId memberUserId : Nat) (role : ProjRole)
    (currentUserId : Nat) : Except ApiError (DB × List NotifEvent × String) :=
  match findProjectById db projectId currentUserId with
  | .error e => .error e
  | .ok project =>
    let isOwner := project.ownerId == currentUserId
    let isAdmin := isProjectAdmin db projectId currentUserId
    if !isOwner && !isAdmin then
      .error (.forbidden "Only project owner or admin can add members")
    else
      match db.users.find? (fun u => u.id == memberUserId) with
      | none => .error (.notFound "User not found")
      | some _ =>
        match db.members.find? (fun m => m.projectId == projectId && m.userId == memberUserId) with
        | some _ => .error (.conflict "User is already a member of this project")
        | none =>
          let projectMember : ProjectMember :=
            { projectId := projectId, userId := memberUserId, role := role,
              isActive := true, leftAt := none }
          .ok ({ db with members := db.members ++ [projectMember] },
               [.memberAdded memberUserId projectId currentUserId role],
               "Member added successfully")

/-- ProjectsService.removeProjectMember: requires the acting user to be
owner or admin, forbids removing the owner, then runs an update that sets
isActive to false on rows matching the pair (affecting zero rows when none
match) and notifies the removed member unconditionally. -/
def removeProjectMember (db : DB) (projectId memberUserId currentUserId : Nat) :
    Except ApiError (DB × List NotifEvent × String) :=
  match findProjectById db projectId currentUserId with
  | .error e => .error e
  | .ok project =>
    let isOwner := project.ownerId == currentUserId
    let isAdmin := isProjectAdmin db projectId currentUserId
    if !isOwner && !isAdmin then
      .error (.forbidden "Only project owner or admin can remove members")
    else if project.ownerId == memberUserId then
      .error (.forbidden "Cannot remove project owner")
    else
      .ok ({ db with members := db.members.map (fun m =>
              if m.projectId == projectId && m.userId == memberUserId then
                { m with isActive := false } else m) },
           [.memberRemoved memberUserId projectId currentUserId],
           "Member removed successfully")

/-- UsersService.softDeleteUser: self-deletion is forbidden, the user must
exist; then one transaction marks the user inactive with deletedAt, marks
the user's active owned projects deleted, deactivates the user's active
memberships (stamping leftAt), stamps deletedAt on the user's not-yet-
deleted created tasks and then on the not-yet-deleted assigned tasks,
archives the user's unread notifications and revokes the user's unrevoked
refresh tokens. -/
def softDeleteUser (db : DB) (userId currentUserId now : Nat) : Except ApiError (DB × String) :=
  if userId == currentUserId then .error (.forbidden "Users cannot delete themselves")
  else
    match db.users.find? (fun u => u.id == userId) with
    | none => .error (.notFound "User not found")
    | some _ =>
      let users1 := db.users.map (fun u =>
        if u.id == userId then { u with isActive := false, deletedAt := some now } else u)
      let projects1 := db.projects.map (fun p =>
        if p.ownerId == userId && p.status == ProjStatus.active then
          { p with status := ProjStatus.deleted } else p)
      let members1 := db.members.map (fun m =>
        if m.userId == userId && m.isActive then
          { m with isActive := false, leftAt := some now } else m)
      let tasksCreated := db.tasks.map (fun t =>
        if t.createdById == userId && t.deletedAt == none then
          { t with deletedAt := some now } else t)
      let tasksAssigned := tasksCreated.map (fun t =>
        if t.assigneeId == some userId && t.deletedAt == none then
          { t with deletedAt := some now } else t)
      let notifs1 := db.notifications.map (fun n =>
        if n.userId == userId && n.status == NotifStatus.unread then
          { n with status := NotifStatus.archived } else n)
      let tokens1 := db.tokens.map (fun tk =>
        if tk.userId == userId && !tk.isRevoked then { tk with isRevoked := true } else tk)
      .ok ({ db with users := users1, projects := projects1, members := members1,
                     tasks := tasksAssigned, notifications := notifs1, tokens := tokens1 },
           "User and all related data soft deleted successfully")

/-- Actions accepted by TasksService.checkTaskPermission. -/
inductive TaskAction
  | read
  | update
  | delete
  | move
  | comment
deriving DecidableEq, Repr

/-- TasksService.checkProjectAccess: findOne the project with id and status
active (NotFound when missing), pass when the user owns it, otherwise pass
exactly when an active membership row exists (else Forbidden). -/
def tsCheckProjectAccess (db : DB) (projectId userId : Nat) : Except ApiError Unit :=
  match db.projects.find? (fun p => p.id == projectId && p.status == ProjStatus.active) with
  | none => .error (.notFound "Project not found")
  | some project =>
    if project.ownerId == userId then .ok ()
    else
      match db.members.find?
          (fun m => m.projectId == projectId && m.userId == userId && m.isActive) with
      | some _ => .ok ()
      | none => .error (.forbidden "You do not have access to this project")

/-- TasksService.checkTaskPermission: project owner first, then active
ADMIN member, then creator for update and delete, then assignee for update
and comment, then any active member for read and comment, else false. -/
def checkTaskPermission (db : DB) (task : Task) (userId : Nat) (action : TaskAction) : Bool :=
  let project := db.projects.find? (fun p => p.id == task.projectId)
  if project.map (·.ownerId) == some userId then true
  else
    let member := db.members.find?
      (fun m => m.projectId == task.projectId && m.userId == userId && m.isActive)
    if member.map (·.role) == some ProjRole.admin then true
    else if task.createdById == userId
        && (action == TaskAction.update || action == TaskAction.delete) then true
    else if task.assigneeId == some userId
        && (action == TaskAction.update || action == TaskAction.comment) then true
    else if member.isSome
        && (action == TaskAction.read || action == TaskAction.comment) then true
    else false

/-- TasksService.getTaskById: findOne the task by id (NotFound when
missing), then require project access on the task's projectId. -/
def getTaskById (db : DB) (taskId userId : Nat) : Except ApiError Task :=
  match db.tasks.find? (fun t => t.id == taskId) with
  | none => .error (.notFound "Task not found")
  | some task =>
    match tsCheckProjectAccess db task.projectId userId with
    | .error e => .error e
    | .ok _ => .ok task

/-- TasksService.getColumnTasks: findOne the active column (NotFound when
missing), then call checkProjectAccess with the column's boardId in the
projectId position, and return the tasks matching columnId and a projectId
equal to the column's boardId, ordered ascending. -/
def getColumnTasks (db : DB) (columnId userId : Nat) : Except ApiError (List Task) :=
  match db.columns.find? (fun c => c.id == columnId && c.isActive) with
  | none => .error (.notFound "Column not found")
  | some column =>
    match tsCheckProjectAccess db column.boardId userId with
    | .error e => .error e
    | .ok _ =>
      .ok (sortByOrder (db.tasks.filter
        (fun t => t.columnId == columnId && t.projectId == column.boardId)))

/-- TasksService.validateColumnAccess: findOne the active column (NotFound
when missing), then findOne an active board with the column's boardId and
the given projectId (NotFound when missing). -/
def validateColumnAccess (db : DB) (columnId projectId : Nat) : Except ApiError Unit :=
  match db.columns.find? (fun c => c.id == columnId && c.isActive) with
  | none => .error (.notFound "Column not found")
  | some column =>
    match db.boards.find?
        (fun b => b.id == column.boardId && b.projectId == projectId && b.isActive) with
    | none => .error (.notFound "Column does not belong to project")
    | some _ => .ok ()

/-- TasksService.validateTaskAccess: project access, then an active board
with the given id belonging to the project, then column validation. -/
def validateTaskAccess (db : DB) (projectId boardId columnId userId : Nat) :
    Except ApiError Unit :=
  match tsCheckProjectAccess db projectId userId with
  | .error e => .error e
  | .ok _ =>
    match db.boards.find?
        (fun b => b.id == boardId && b.projectId == projectId && b.isActive) with
    | none => .error (.notFound "Board not found or does not belong to project")
    | some _ => validateColumnAccess db columnId projectId

/-- Payload of TasksService.createTask. -/
structure CreateTaskDto where
  projectId : Nat
  boardId : Nat
  columnId : Nat
  title : String
  assigneeId : Option Nat
  priority : Option Priority
deriving DecidableEq, Repr

/-- TasksService.createTask: validate project, board and column, compute the
next order as (MAX(order) in the column || -1) + 1, then insert the task
with createdById equal to the actor and priority defaulted to MEDIUM.  The
parameter newId stands for the generated primary key. -/
def createTask (db : DB) (dto : CreateTaskDto) (userId newId : Nat) :
    Except ApiError (DB × Task) :=
  match validateTaskAccess db dto.projectId dto.boardId dto.columnId userId with
  | .error e => .error e
  | .ok _ =>
    let nextOrder := jsNextOrder (maxOrderIn db dto.columnId)
    let task : Task :=
      { id := newId, projectId := dto.projectId, boardId := dto.boardId,
        columnId := dto.columnId, createdById := userId, assigneeId := dto.assigneeId,
        title := dto.title, priority := dto.priority.getD Priority.medium,
        order := nextOrder, deletedAt := none }
    .ok ({ db with tasks := db.tasks ++ [task] }, task)

/-- Payload of TasksService.updateTask; assigneeId keeps the JavaScript
distinction between an absent key, an explicit null and a number. -/
structure UpdateTaskDto where
  title : Option String
  columnId : Option Nat
  assigneeId : JsOptNat
deriving DecidableEq, Repr

/-- Object.assign of the update DTO onto the task row: absent keys leave
the row untouched, an explicit null clears the assignee. -/
def mergeUpdate (task : Task) (dto : UpdateTaskDto) : Task :=
  { task with
    title := dto.title.getD task.title,
    columnId := dto.columnId.getD task.columnId,
    assigneeId :=
      match dto.assigneeId with
      | .undef => task.assigneeId
      | .null => none
      | .val n => some n }

/-- TasksService.updateTask: load the task (existence plus project access),
require the update permission, validate a changed column, merge the DTO
into the row and save, then emit unassigned and assigned notifications
whenever the DTO assigneeId value differs from the stored one under the
JavaScript strict-inequality check. -/
def updateTask (db : DB) (taskId : Nat) (dto : UpdateTaskDto) (userId : Nat) :
    Except ApiError (DB × Task × List NotifEvent) :=
  match getTaskById db taskId userId with
  | .error e => .error e
  | .ok task =>
    if !(checkTaskPermission db task userId TaskAction.update) then
      .error (.forbidden "You do not have permission to update this task")
    else
      let colCheck : Except ApiError Unit :=
        match dto.columnId with
        | some c => if c != task.columnId then validateColumnAccess db c task.projectId else .ok ()
        | none => .ok ()
      match colCheck with
      | .error e => .error e
      | .ok _ =>
        let oldAssigneeId : JsOptNat :=
          match task.assigneeId with
          | none => .null
          | some n => .val n
        let newAssigneeId := dto.assigneeId
        let savedTask := mergeUpdate task dto
        let db1 := { db with tasks := db.tasks.map (fun t => if t.id == taskId then savedTask else t) }
        let events :=
          if oldAssigneeId != newAssigneeId then
            (if oldAssigneeId.truthy && oldAssigneeId != .val userId then
              [NotifEvent.taskUnassigned oldAssigneeId.get task.id userId] else [])
            ++
            (if newAssigneeId.truthy && newAssigneeId != .val userId then
              [NotifEvent.taskAssigned newAssigneeId.get task.id userId] else [])
          else []
        .ok (db1, savedTask, events)

/-- Loop body of TasksService.reorderTasksInColumnHelper: walk the fetched
column tasks with a counter starting at cnt, skip the moved task, bump the
counter once when it hits the moved task's new order, and record the order
assigned to each remaining task id. -/
def helperAssign : List Task → Nat → Nat → Nat → List (Nat × Nat)
  | [], _, _, _ => []
  | t :: ts, movedId, newOrder, cnt =>
    if t.id == movedId then helperAssign ts movedId newOrder cnt
    else
      let c := if cnt == newOrder then cnt + 1 else cnt
      (t.id, c) :: helperAssign ts movedId newOrder (c + 1)

/-- Save step of the renumbering loop: a row whose id was recorded receives
its recorded order, every other row is untouched. -/
def applyAssigns (assigns : List (Nat × Nat)) (t : Task) : Task :=
  match assigns.lookup t.id with
  | some o => { t with order := o }
  | none => t

/-- TasksService.reorderTasksInColumnHelper: fetch all tasks of the column
ordered ascending (no deletedAt filter), then save the renumbering computed
by the counter loop; rows outside the column are untouched. -/
def reorderTasksInColumnHelper (db : DB) (columnId movedTaskId newOrder : Nat) : DB :=
  let fetched := sortByOrder (db.tasks.filter (fun t => t.columnId == columnId))
  let assigns := helperAssign fetched movedTaskId newOrder 0
  { db with tasks := db.tasks.map (applyAssigns assigns) }

/-- Payload of TasksService.moveTask; newOrder is undefined when absent. -/
structure MoveTaskDto where
  targetColumnId : Nat
  newOrder : Option Nat
deriving DecidableEq, Repr

/-- TasksService.moveTask: load the task, require the move permission,
validate the target column against the task's project; then set the task's
columnId to the target and either set its order to the explicit newOrder
and renumber the other tasks of the target column, or append it with order
(MAX(order) in the target column || -1) + 1 computed before the save. -/
def moveTask (db : DB) (taskId : Nat) (dto : MoveTaskDto) (userId : Nat) :
    Except ApiError (DB × String) :=
  match getTaskById db taskId userId with
  | .error e => .error e
  | .ok task =>
    if !(checkTaskPermission db task userId TaskAction.move) then
      .error (.forbidden "You do not have permission to move this task")
    else
      match validateColumnAccess db dto.targetColumnId task.projectId with
      | .error e => .error e
      | .ok _ =>
        match dto.newOrder with
        | some o =>
          let db1 := { db with tasks := db.tasks.map (fun t =>
            if t.id == taskId then { t with columnId := dto.targetColumnId, order := o } else t) }
          .ok (reorderTasksInColumnHelper db1 dto.targetColumnId taskId o,
               "Task moved successfully")
        | none =>
          let o := jsNextOrder (maxOrderIn db dto.targetColumnId)
          .ok ({ db with tasks := db.tasks.map (fun t =>
                  if t.id == taskId then { t with columnId := dto.targetColumnId, order := o } else t) },
               "Task moved successfully")

/-- Payload of TasksService.reorderTasksInColumn. -/
structure ReorderTasksDto where
  taskIds : List Nat
deriving DecidableEq, Repr

/-- Update loop of TasksService.reorderTasksInColumn: for the i-th id in
the request, set order to i on rows matching that id and the column;
ids that match no row of the column are ignored. -/
def applyReorder (columnId : Nat) : List Nat → Nat → List Task → List Task
  | [], _, ts => ts
  | tid :: rest, i, ts =>
    applyReorder columnId rest (i + 1)
      (ts.map (fun t => if t.id == tid && t.columnId == columnId then { t with order := i } else t))

/-- TasksService.reorderTasksInColumn: findOne the active column (NotFound
when missing), call checkProjectAccess with the column's boardId in the
projectId position, then run the indexed update loop in one transaction. -/
def reorderTasksInColumn (db : DB) (columnId : Nat) (dto : ReorderTasksDto) (userId : Nat) :
    Except ApiError (DB × String) :=
  match db.columns.find? (fun c => c.id == columnId && c.isActive) with
  | none => .error (.notFound "Column not found")
  | some column =>
    match tsCheckProjectAccess db column.boardId userId with
    | .error e => .error e
    | .ok _ =>
      .ok ({ db with tasks := applyReorder columnId dto.taskIds 0 db.tasks },
           "Tasks reordered successfully")

/-- Truth value telling whether a service call succeeded. -/
def exceptOk {α : Type} (r : Except ApiError α) : Bool :=
  match r with
  | .ok _ => true
  | .error _ => false

/-- Database state produced by a successful call, or the fallback state when
the call failed (a failed transaction leaves the store unchanged). -/
def resultDB {α : Type} (r : Except ApiError (DB × α)) (fallback : DB) : DB :=
  match r with
  | .ok p => p.1
  | .error _ => fallback

/-- Payload of a successful call, or the fallback value when it failed. -/
def resultPayload {α : Type} (r : Except ApiError (DB × α)) (fallback : α) : α :=
  match r with
  | .ok p => p.2
  | .error _ => fallback

/-- Order values of the active (not soft-deleted) tasks of a column. -/
def activeColOrders (db : DB) (c : Nat) : List Nat :=
  (db.tasks.filter (fun t => t.columnId == c && t.deletedAt == none)).map (·.order)

/-- Density invariant of the specification: the active tasks of column c
carry exactly the order values 0 to N-1, with N their count. -/
def denseColumn (db : DB) (c : Nat) : Prop :=
  List.Perm (activeColOrders db c) (List.range (activeColOrders db c).length)

instance (db : DB) (c : Nat) : Decidable (denseColumn db c) :=
  List.decidablePerm (activeColOrders db c) (List.range (activeColOrders db c).length)

instance {ε α : Type} [DecidableEq ε] [DecidableEq α] : DecidableEq (Except ε α) := fun x y =>
  match x, y with
  | .ok a, .ok b =>
    if h : a = b then .isTrue (by rw [h]) else
      .isFalse (by intro hc; cases hc; exact h rfl)
  | .error a, .error b =>
    if h : a = b then .isTrue (by rw [h]) else
      .isFalse (by intro hc; cases hc; exact h rfl)
  | .ok _, .error _ => .isFalse (by intro hc; cases hc)
  | .error _, .ok _ => .isFalse (by intro hc; cases hc)

/-- Order values of all tasks of a column, soft-deleted rows included. -/
def colOrders (db : DB) (c : Nat) : List Nat :=
  (db.tasks.filter (fun t => t.columnId == c)).map (·.order)

/-- One drag-and-drop call: either a task move or a column reorder. -/
inductive BoardOp
  | move (taskId : Nat) (dto : MoveTaskDto) (userId : Nat)
  | reorder (columnId : Nat) (dto : ReorderTasksDto) (userId : Nat)
deriving DecidableEq, Repr

/-- State reached after one call settles: the new state on success, the
unchanged state when the call failed (the transaction rolls back). -/
def applyOp (db : DB) : BoardOp → DB
  | .move taskId dto userId => resultDB (moveTask db taskId dto userId) db
  | .reorder columnId dto userId => resultDB (reorderTasksInColumn db columnId dto userId) db

/-- State reached after a finite sequence of calls settles. -/
def applyOps (db : DB) (ops : List BoardOp) : DB :=
  ops.foldl applyOp db

/-- Restriction under which the density invariant is provable: a move stays
in the task's current column with an explicit order below the column size,
and a reorder lists exactly the ids of the column's tasks. -/
def goodOp (db : DB) : BoardOp → Prop
  | .move taskId dto _ =>
      ∃ t ∈ db.tasks, t.id = taskId ∧ dto.targetColumnId = t.columnId ∧
        ∃ o, dto.newOrder = some o ∧
          o < (db.tasks.filter (fun s => s.columnId == t.columnId)).length
  | .reorder columnId dto _ =>
      List.Perm dto.taskIds ((db.tasks.filter (fun t => t.columnId == columnId)).map (·.id))

/-- Restriction of a whole call sequence, each call judged against the
state it actually runs in. -/
def goodOps : DB → List BoardOp → Prop
  | _, [] => True
  | db, op :: ops => goodOp db op ∧ goodOps (applyOp db op) ops

/-- Other tasks of the target column, listed by increasing stored order:
the relative order the renumbering of moveTask must preserve. -/
def otherColumnTasks (db : DB) (tgt taskId : Nat) : List Task :=
  sortByOrder (db.tasks.filter (fun t => t.columnId == tgt && t.id != taskId))

/-- Value assigned by the renumbering loop to the k-th remaining task when
the counter starts at cnt and the slot newOrder is reserved. -/
def skipBump (newOrder cnt k : Nat) : Nat :=
  if cnt + k < newOrder ∨ newOrder < cnt then cnt + k else cnt + k + 1

/-- Fallback task row for payload extractors. -/
def task0 : Task :=
  { id := 0, projectId := 0, boardId := 0, columnId := 0, createdById := 0,
    assigneeId := none, title := "", priority := Priority.medium, order := 0,
    deletedAt := none }

/-- Project 1 owned by user 1 with board 1 and column 1, and three tasks
A, B, C in the column with orders 0, 1, 2: the worked example of the
specification. -/
def dbC1 : DB :=
  { users := [⟨1, true, none⟩],
    projects := [⟨1, 1, ProjStatus.active⟩],
    members := [⟨1, 1, ProjRole.admin, true, none⟩],
    boards := [⟨1, 1, true⟩],
    columns := [⟨1, 1, true⟩],
    tasks := [⟨1, 1, 1, 1, 1, none, "A", Priority.medium, 0, none⟩,
              ⟨2, 1, 1, 1, 1, none, "B", Priority.medium, 1, none⟩,
              ⟨3, 1, 1, 1, 1, none, "C", Priority.medium, 2, none⟩],
    notifications := [],
    tokens := [] }

/-- State after moving task C to the front of its own column. -/
def dbC1res : DB :=
  resultDB (moveTask dbC1 3 ⟨1, some 0⟩ 1) dbC1

/-- Column 1 with tasks A and B at orders 0 and 1. -/
def dbC2a : DB :=
  { users := [⟨1, true, none⟩],
    projects := [⟨1, 1, ProjStatus.active⟩],
    members := [],
    boards := [⟨1, 1, true⟩],
    columns := [⟨1, 1, true⟩],
    tasks := [⟨1, 1, 1, 1, 1, none, "A", Priority.medium, 0, none⟩,
              ⟨2, 1, 1, 1, 1, none, "B", Priority.medium, 1, none⟩],
    notifications := [],
    tokens := [] }

/-- Column 1 with a single task at order 0. -/
def dbC2b : DB :=
  { dbC2a with tasks := [⟨1, 1, 1, 1, 1, none, "A", Priority.medium, 0, none⟩] }

/-- Two columns: tasks A and B sit in column 1, column 2 is empty. -/
def dbC2c : DB :=
  { dbC2a with columns := [⟨1, 1, true⟩, ⟨2, 1, true⟩] }

/-- Column 1 containing active tasks A and B at orders 0 and 1 and a
soft-deleted task S at order 2: the active orders are dense. -/
def dbC2e : DB :=
  { dbC2a with tasks := [⟨1, 1, 1, 1, 1, none, "A", Priority.medium, 0, none⟩,
                         ⟨2, 1, 1, 1, 1, none, "B", Priority.medium, 1, none⟩,
                         ⟨3, 1, 1, 1, 1, none, "S", Priority.medium, 2, some 1⟩] }

/-- Restricted call sequence used to exercise the amended invariant: a full
permutation reorder of column 1 followed by an in-range same-column move. -/
def opsC2w : List BoardOp :=
  [.reorder 1 ⟨[3, 1, 2]⟩ 1, .move 3 ⟨1, some 0⟩ 1]

/-- Project 1 with board 1, column 1 and a single task at order 0, the
failing input of the createTask order computation. -/
def dbC3 : DB :=
  { users := [⟨1, true, none⟩],
    projects := [⟨1, 1, ProjStatus.active⟩],
    members := [],
    boards := [⟨1, 1, true⟩],
    columns := [⟨1, 1, true⟩],
    tasks := [⟨1, 1, 1, 1, 1, none, "A", Priority.medium, 0, none⟩],
    notifications := [],
    tokens := [] }

/-- Task-creation payload targeting column 1 of project 1. -/
def dtoC3 : CreateTaskDto :=
  { projectId := 1, boardId := 1, columnId := 1, title := "B",
    assigneeId := none, priority := none }

/-- Project 3 owned by user 1 whose board has id 7: the board id differs
from the project id, so the boardId-for-projectId confusion is visible. -/
def dbC4 : DB :=
  { users := [⟨1, true, none⟩],
    projects := [⟨3, 1, ProjStatus.active⟩],
    members := [],
    boards := [⟨7, 3, true⟩],
    columns := [⟨10, 7, true⟩],
    tasks := [⟨100, 3, 7, 10, 1, none, "T", Priority.medium, 0, none⟩],
    notifications := [],
    tokens := [] }

/-- Variant of dbC4 where a project with id 7 also exists, so the access
check passes yet the task filter still looks for projectId 7. -/
def dbC4b : DB :=
  { dbC4 with projects := [⟨3, 1, ProjStatus.active⟩, ⟨7, 1, ProjStatus.active⟩] }

/-- Project 1 owned by user 1 with an active membership of user 2, a board,
a column, a task and an unread notification: material for comparing the two
delete entry points. -/
def dbC5 : DB :=
  { users := [⟨1, true, none⟩, ⟨2, true, none⟩],
    projects := [⟨1, 1, ProjStatus.active⟩],
    members := [⟨1, 2, ProjRole.member, true, none⟩],
    boards := [⟨1, 1, true⟩],
    columns := [⟨1, 1, true⟩],
    tasks := [⟨1, 1, 1, 1, 1, none, "T", Priority.medium, 0, none⟩],
    notifications := [⟨1, 2, some 1, NotifStatus.unread⟩],
    tokens := [] }

/-- State after the forwarding deleteProject runs on dbC5. -/
def dbC5res : DB :=
  resultDB (deleteProject dbC5 1 1 7) dbC5

/-- Users 1 and 2 where user 2 has one notification already in status
read: the failing input for the notification part of the user cascade. -/
def dbC6 : DB :=
  { users := [⟨1, true, none⟩, ⟨2, true, none⟩],
    projects := [],
    members := [],
    boards := [],
    columns := [],
    tasks := [],
    notifications := [⟨1, 2, none, NotifStatus.read⟩],
    tokens := [] }

/-- Fuller state for exercising the user cascade: user 2 owns project 2,
is a member of project 1, created task 1, is assigned task 2, holds an
unread notification and an unrevoked refresh token. -/
def dbC6w : DB :=
  { users := [⟨1, true, none⟩, ⟨2, true, none⟩],
    projects := [⟨1, 1, ProjStatus.active⟩, ⟨2, 2, ProjStatus.active⟩],
    members := [⟨1, 2, ProjRole.member, true, none⟩],
    boards := [],
    columns := [],
    tasks := [⟨1, 1, 1, 1, 2, none, "T1", Priority.medium, 0, none⟩,
              ⟨2, 1, 1, 1, 1, some 2, "T2", Priority.medium, 1, none⟩],
    notifications := [⟨1, 2, some 1, NotifStatus.unread⟩],
    tokens := [⟨1, 2, false⟩] }

/-- State after soft-deleting user 2 from dbC6w. -/
def dbC6wres : DB :=
  resultDB (softDeleteUser dbC6w 2 1 9) dbC6w

/-- Project 1 owned by user 1 with task 1 assigned to user 5. -/
def dbC7 : DB :=
  { users := [⟨1, true, none⟩, ⟨5, true, none⟩],
    projects := [⟨1, 1, ProjStatus.active⟩],
    members := [],
    boards := [⟨1, 1, true⟩],
    columns := [⟨1, 1, true⟩],
    tasks := [⟨1, 1, 1, 1, 1, some 5, "T", Priority.medium, 0, none⟩],
    notifications := [],
    tokens := [] }

/-- Title-only update payload: the assigneeId key is absent. -/
def dtoC7 : UpdateTaskDto :=
  { title := some "renamed", columnId := none, assigneeId := JsOptNat.undef }

/-- Project 1 owned by user 1 (who also has the admin membership row that
createProject inserts) and a second registered user 2. -/
def dbC8 : DB :=
  { users := [⟨1, true, none⟩, ⟨2, true, none⟩],
    projects := [⟨1, 1, ProjStatus.active⟩],
    members := [⟨1, 1, ProjRole.admin, true, none⟩],
    boards := [],
    columns := [],
    tasks := [],
    notifications := [],
    tokens := [] }

/-- State after the first successful addProjectMember call on dbC8. -/
def dbC8b : DB :=
  resultDB (addProjectMember dbC8 1 2 ProjRole.member 1) dbC8

/-- Project 1 owned by user 1 with an admin member 2, a plain member 5 and
a task created by user 3 and assigned to user 4; user 6 is an outsider. -/
def dbC9 : DB :=
  { users := [⟨1, true, none⟩, ⟨2, true, none⟩, ⟨3, true, none⟩,
              ⟨4, true, none⟩, ⟨5, true, none⟩, ⟨6, true, none⟩],
    projects := [⟨1, 1, ProjStatus.active⟩],
    members := [⟨1, 2, ProjRole.admin, true, none⟩,
                ⟨1, 3, ProjRole.member, true, none⟩,
                ⟨1, 4, ProjRole.member, true, none⟩,
                ⟨1, 5, ProjRole.member, true, none⟩],
    boards := [⟨1, 1, true⟩],
    columns := [⟨1, 1, true⟩],
    tasks := [⟨1, 1, 1, 1, 3, some 4, "T", Priority.medium, 0, none⟩],
    notifications := [],
    tokens := [] }

/-- The task row of dbC9. -/
def taskC9 : Task :=
  ⟨1, 1, 1, 1, 3, some 4, "T", Priority.medium, 0, none⟩

/-- Project 1 owned by user 1 whose only membership row belongs to the
owner; user 3 has no membership row at all. -/
def dbC10 : DB :=
  { users := [⟨1, true, none⟩, ⟨3, true, none⟩],
    projects := [⟨1, 1, ProjStatus.active⟩],
    members := [⟨1, 1, ProjRole.admin, true, none⟩],
    boards := [],
    columns := [],
    tasks := [],
    notifications := [],
    tokens := [] }

instance : IsTotal Task (fun a b => a.order ≤ b.order) :=
  ⟨fun a b => Nat.le_total a.order b.order⟩

instance : IsTrans Task (fun a b => a.order ≤ b.order) :=
  ⟨fun _ _ _ h1 h2 => Nat.le_trans h1 h2⟩

/-- C2, counterexample.  Five completed call sequences of length one, each
starting from a legitimate state, after which the active tasks of column 1
do not carry the order values 0 to N-1: a reorder listing only one of the
two column tasks leaves duplicate orders; a move with explicit order 5 in a
one-task column leaves order 5; a move of a task out of column 1 leaves a
gap in column 1; a same-column move without explicit order appends past the
maximum, leaving a gap; a same-column move with explicit order 2 in a column whose two active
tasks sit before a soft-deleted row renumbers the soft-deleted row into the
dense range, leaving the active orders 0 and 2. -/
theorem C2_counterexample :
    (denseColumn dbC2a 1 ∧ exceptOk (reorderTasksInColumn dbC2a 1 ⟨[2]⟩ 1) = true ∧
      ¬ denseColumn (resultDB (reorderTasksInColumn dbC2a 1 ⟨[2]⟩ 1) dbC2a) 1) ∧
    (denseColumn dbC2b 1 ∧ exceptOk (moveTask dbC2b 1 ⟨1, some 5⟩ 1) = true ∧
      ¬ denseColumn (resultDB (moveTask dbC2b 1 ⟨1, some 5⟩ 1) dbC2b) 1) ∧
    (denseColumn dbC2c 1 ∧ exceptOk (moveTask dbC2c 1 ⟨2, some 0⟩ 1) = true ∧
      ¬ denseColumn (resultDB (moveTask dbC2c 1 ⟨2, some 0⟩ 1) dbC2c) 1) ∧
    (denseColumn dbC2a 1 ∧ exceptOk (moveTask dbC2a 2 ⟨1, none⟩ 1) = true ∧
      ¬ denseColumn (resultDB (moveTask dbC2a 2 ⟨1, none⟩ 1) dbC2a) 1) ∧
    (denseColumn dbC2e 1 ∧ exceptOk (moveTask dbC2e 2 ⟨1, some 2⟩ 1) = true ∧
      ¬ denseColumn (resultDB (moveTask dbC2e 2 ⟨1, some 2⟩ 1) dbC2e) 1) := by
  decide

/-- C3: evaluation of createTask at the failing input.  Column 1 is not
empty, its maximum order is 0, yet the inserted task receives order 0
(because 0 is falsy in the JavaScript expression (max || -1) + 1), leaving
the column with duplicate orders 0, 0 where the claim requires the new task
to get order 1.  The priority default and createdById parts do hold. -/
theorem C3_createTask_order_falsy_zero :
    maxOrderIn dbC3 1 = some 0 ∧
    exceptOk (createTask dbC3 dtoC3 1 2) = true ∧
    (resultPayload (createTask dbC3 dtoC3 1 2) task0).order = 0 ∧
    (resultPayload (createTask dbC3 dtoC3 1 2) task0).createdById = 1 ∧
    (resultPayload (createTask dbC3 dtoC3 1 2) task0).priority = Priority.medium ∧
    colOrders (resultDB (createTask dbC3 dtoC3 1 2) dbC3) 1 = [0, 0] := by
  decide

/-- C4: evaluation of getColumnTasks at the failing input.  Column 10 is
active and its owning project is 3 (through board 7), and user 1 does have
access to project 3; yet the call fails NotFound because the code passes
the column's boardId 7 where a projectId is expected.  In the variant
where a project with id 7 happens to exist the call succeeds but returns
no tasks, because the task filter requires projectId = 7 while the column's
task has projectId 3. -/
theorem C4_getColumnTasks_board_as_project :
    (dbC4.columns.find? (fun c => c.id == 10 && c.isActive)).isSome = true ∧
    tsCheckProjectAccess dbC4 3 1 = .ok () ∧
    getColumnTasks dbC4 10 1 = .error (.notFound "Project not found") ∧
    tsCheckProjectAccess dbC4b 7 1 = .ok () ∧
    getColumnTasks dbC4b 10 1 = .ok [] ∧
    (dbC4b.tasks.filter (fun t => t.columnId == 10)).length = 1 := by
  decide

/-- C5, counterexample.  On the same starting state the legacy
deleteProject of projects.service.ts leaves the membership of user 2
active, while softDeleteProject deactivates it and stamps leftAt: the two
entry points do not have the same effect on the stored state. -/
theorem C5_counterexample :
    exceptOk (deleteProjectLegacy dbC5 1 1) = true ∧
    exceptOk (softDeleteProject dbC5 1 1 7) = true ∧
    (resultDB (deleteProjectLegacy dbC5 1 1) dbC5).members =
      [⟨1, 2, ProjRole.member, true, none⟩] ∧
    (resultDB (softDeleteProject dbC5 1 1 7) dbC5).members =
      [⟨1, 2, ProjRole.member, false, some 7⟩] ∧
    resultDB (deleteProjectLegacy dbC5 1 1) dbC5 ≠
      resultDB (softDeleteProject dbC5 1 1 7) dbC5 := by
  decide

/-- C6, counterexample.  User 2 holds one notification whose status is
read; softDeleteUser succeeds but leaves that notification in status read,
because the cascade only archives rows whose status is unread — not every
notification belonging to the user. -/
theorem C6_counterexample :
    dbC6.notifications = [⟨1, 2, none, NotifStatus.read⟩] ∧
    exceptOk (softDeleteUser dbC6 2 1 9) = true ∧
    (resultDB (softDeleteUser dbC6 2 1 9) dbC6).notifications =
      [⟨1, 2, none, NotifStatus.read⟩] := by
  decide

/-- C7: evaluation of updateTask at the failing input.  The stored task is
assigned to user 5 and the DTO is a title-only update with no assigneeId
key; the saved task still has assignee 5 (nothing changed), yet the call
emits a task-unassigned notification to user 5, because the code compares
the stored number 5 against the DTO's undefined with strict inequality. -/
theorem C7_updateTask_phantom_unassign :
    dtoC7.assigneeId = JsOptNat.undef ∧
    (dbC7.tasks.find? (fun t => t.id == 1)).map (·.assigneeId) = some (some 5) ∧
    exceptOk (updateTask dbC7 1 dtoC7 1) = true ∧
    (resultPayload (updateTask dbC7 1 dtoC7 1) (task0, [])).1.assigneeId = some 5 ∧
    (resultPayload (updateTask dbC7 1 dtoC7 1) (task0, [])).2 =
      [NotifEvent.taskUnassigned 5 1 1] := by
  decide

/-- C10: for an active accessible project, an acting owner or admin and a
target user who is not the owner, removeProjectMember succeeds with the
member-removed message and notification even when no active membership row
exists for the target, and in that case the stored state is unchanged. -/
theorem C10_removeProjectMember_absent (db : DB) (projectId memberUserId currentUserId : Nat)
    (project : Project)
    (hfind : findProjectById db projectId currentUserId = .ok project)
    (hauth : project.ownerId = currentUserId ∨ isProjectAdmin db projectId currentUserId = true)
    (howner : project.ownerId ≠ memberUserId)
    (habsent : ∀ m ∈ db.members,
      m.projectId = projectId → m.userId = memberUserId → m.isActive = false) :
    removeProjectMember db projectId memberUserId currentUserId =
      .ok (db, [.memberRemoved memberUserId projectId currentUserId],
           "Member removed successfully") := by
  have hcond : (!(project.ownerId == currentUserId)
      && !(isProjectAdmin db projectId currentUserId)) = false := by
    rcases hauth with h | h <;> simp [h]
  have howner' : (project.ownerId == memberUserId) = false := beq_eq_false_iff_ne.mpr howner
  have hmap : db.members.map (fun m =>
      if m.projectId == projectId && m.userId == memberUserId then
        { m with isActive := false } else m) = db.members := by
    have hpt : ∀ m ∈ db.members,
        (if m.projectId == projectId && m.userId == memberUserId then
          { m with isActive := false } else m) = id m := by
      intro m hm
      by_cases h : (m.projectId == projectId && m.userId == memberUserId) = true
      · rw [Bool.and_eq_true, beq_iff_eq, beq_iff_eq] at h
        have hact := habsent m hm h.1 h.2
        simp only [h.1, h.2, beq_self_eq_true, Bool.and_self, if_true, id_eq]
        cases m
        simp_all
      · have h' : (m.projectId == projectId && m.userId == memberUserId) = false :=
          Bool.eq_false_iff.mpr h
        simp [h']
    rw [List.map_congr_left hpt, List.map_id]
  simp only [removeProjectMember, hfind, hcond, howner', hmap]
  rfl

/-- C10, witness: removing user 3 from project 1, where user 3 has no
membership row at all, still succeeds and changes nothing. -/
theorem C10_witness :
    removeProjectMember dbC10 1 3 1 =
      .ok (dbC10, [.memberRemoved 3 1 1], "Member removed successfully") :=
  C10_removeProjectMember_absent dbC10 1 3 1 ⟨1, 1, ProjStatus.active⟩ (by decide)
    (Or.inl rfl) (by decide) (by decide)

/-- C8: whenever any membership row for the pair exists, active or not, and
the acting user is owner or admin of the accessible project and the target
user exists, addProjectMember fails with the Conflict error and inserts
nothing. -/
theorem C8_addProjectMember_conflict (db : DB) (projectId memberUserId : Nat)
    (role : ProjRole) (currentUserId : Nat) (project : Project)
    (hfind : findProjectById db projectId currentUserId = .ok project)
    (hauth : project.ownerId = currentUserId ∨ isProjectAdmin db projectId currentUserId = true)
    (huser : ∃ u ∈ db.users, u.id = memberUserId)
    (hrow : ∃ m ∈ db.members, m.projectId = projectId ∧ m.userId = memberUserId) :
    addProjectMember db projectId memberUserId role currentUserId =
      .error (.conflict "User is already a member of this project") := by
  have hcond : (!(project.ownerId == currentUserId)
      && !(isProjectAdmin db projectId currentUserId)) = false := by
    rcases hauth with h | h <;> simp [h]
  have huser' : (db.users.find? (fun u => u.id == memberUserId)).isSome = true := by
    rw [List.find?_isSome]
    obtain ⟨u, hu, he⟩ := huser
    exact ⟨u, hu, by simp [he]⟩
  have hrow' : (db.members.find?
      (fun m => m.projectId == projectId && m.userId == memberUserId)).isSome = true := by
    rw [List.find?_isSome]
    obtain ⟨m, hm, h1, h2⟩ := hrow
    exact ⟨m, hm, by simp [h1, h2]⟩
  obtain ⟨u0, hu0⟩ := Option.isSome_iff_exists.mp huser'
  obtain ⟨m0, hm0⟩ := Option.isSome_iff_exists.mp hrow'
  simp only [addProjectMember, hfind, hcond, hu0, hm0]
  rfl

/-- C8, witness: the specification's example run; the first call adds user
2 as a member, the immediately repeated call with role admin hits the
Conflict, even though the existing row is active. -/
theorem C8_witness :
    addProjectMember dbC8 1 2 ProjRole.member 1 =
      .ok (dbC8b, [.memberAdded 2 1 1 ProjRole.member], "Member added successfully") ∧
    addProjectMember dbC8b 1 2 ProjRole.admin 1 =
      .error (.conflict "User is already a member of this project") :=
  ⟨by decide,
   C8_addProjectMember_conflict dbC8b 1 2 ProjRole.admin 1 ⟨1, 1, ProjStatus.active⟩
     (by decide) (Or.inl rfl) (by decide) (by decide)⟩

/-- C6, amended: softDeleteUser marks the user inactive with deletedAt,
marks every project the user owns deleted, deactivates the user's
memberships, stamps deletedAt on every task the user created or is
assigned to, archives every previously-unread notification of the user
(rows already read stay read, which is what the counterexample forces the
claim to concede), and revokes the user's refresh tokens. -/
theorem C6_amended (db : DB) (userId currentUserId now : Nat) (db2 : DB) (msg : String)
    (hcall : softDeleteUser db userId currentUserId now = .ok (db2, msg)) :
    (∀ u ∈ db2.users, u.id = userId → u.isActive = false ∧ u.deletedAt = some now) ∧
    (∀ p ∈ db2.projects, p.ownerId = userId → p.status = ProjStatus.deleted) ∧
    (∀ m ∈ db2.members, m.userId = userId → m.isActive = false) ∧
    (∀ t ∈ db2.tasks, (t.createdById = userId ∨ t.assigneeId = some userId) →
      t.deletedAt ≠ none) ∧
    (∀ n ∈ db2.notifications, n.userId = userId → n.status ≠ NotifStatus.unread) ∧
    (∀ n ∈ db.notifications, n.userId = userId → n.status = NotifStatus.unread →
      { n with status := NotifStatus.archived } ∈ db2.notifications) ∧
    (∀ tk ∈ db2.tokens, tk.userId = userId → tk.isRevoked = true) := by
  unfold softDeleteUser at hcall
  split at hcall
  · simp at hcall
  · split at hcall
    · simp at hcall
    · rw [Except.ok.injEq, Prod.mk.injEq] at hcall
      obtain ⟨hdb, -⟩ := hcall
      subst hdb
      refine ⟨?_, ?_, ?_, ?_, ?_, ?_, ?_⟩
      · intro u hu hid
        simp only [List.mem_map] at hu
        obtain ⟨u0, hu0, rfl⟩ := hu
        by_cases h : (u0.id == userId) = true
        · simp [h]
        · have h' := Bool.eq_false_iff.mpr h
          simp [h'] at hid ⊢
          exact absurd hid (by simpa using h')
      · intro p hp hid
        simp only [List.mem_map] at hp
        obtain ⟨p0, hp0, rfl⟩ := hp
        by_cases h : (p0.ownerId == userId && p0.status == ProjStatus.active) = true
        · simp [h]
        · have h' := Bool.eq_false_iff.mpr h
          simp [h'] at hid ⊢
          rw [Bool.and_eq_false_iff] at h'
          rcases h' with h' | h'
          · exact absurd hid (by simpa using h')
          · cases hs : p0.status
            · rw [hs] at h'
              simp at h'
            · rfl
      · intro m hm hid
        simp only [List.mem_map] at hm
        obtain ⟨m0, hm0, rfl⟩ := hm
        by_cases h : (m0.userId == userId && m0.isActive) = true
        · simp [h]
        · have h' := Bool.eq_false_iff.mpr h
          simp [h'] at hid ⊢
          rw [Bool.and_eq_false_iff] at h'
          rcases h' with h' | h'
          · exact absurd hid (by simpa using h')
          · exact h'
      · intro t ht hdisj
        simp only [List.mem_map, List.map_map] at ht
        obtain ⟨t0, ht0, rfl⟩ := ht
        by_cases h1 : (t0.createdById == userId && t0.deletedAt == none) = true
        · simp [Function.comp, h1]
        · have h1' := Bool.eq_false_iff.mpr h1
          by_cases h2 : (t0.assigneeId == some userId && t0.deletedAt == none) = true
          · simp [Function.comp, h1', h2]
          · have h2' := Bool.eq_false_iff.mpr h2
            simp [Function.comp, h1', h2'] at hdisj ⊢
            intro hnone
            rw [Bool.and_eq_false_iff] at h1' h2'
            rcases hdisj with hc | ha
            · rcases h1' with h' | h'
              · exact absurd hc (by simpa using h')
              · exact absurd hnone (by simpa using h')
            · rcases h2' with h' | h'
              · exact absurd ha (by simpa using h')
              · exact absurd hnone (by simpa using h')
      · intro n hn hid
        simp only [List.mem_map] at hn
        obtain ⟨n0, hn0, rfl⟩ := hn
        by_cases h : (n0.userId == userId && n0.status == NotifStatus.unread) = true
        · simp [h]
        · have h' := Bool.eq_false_iff.mpr h
          simp [h'] at hid ⊢
          rw [Bool.and_eq_false_iff] at h'
          rcases h' with h' | h'
          · exact absurd hid (by simpa using h')
          · simpa using h'
      · intro n hn hid hst
        refine List.mem_map.mpr ⟨n, hn, ?_⟩
        simp [hid, hst]
      · intro tk htk hid
        simp only [List.mem_map] at htk
        obtain ⟨tk0, htk0, rfl⟩ := htk
        by_cases h : (tk0.userId == userId && !tk0.isRevoked) = true
        · simp [h]
        · have h' := Bool.eq_false_iff.mpr h
          simp [h'] at hid ⊢
          rw [Bool.and_eq_false_iff] at h'
          rcases h' with h' | h'
          · exact absurd hid (by simpa using h')
          · simpa using h'

/-- C6, witness: soft-deleting user 2, who owns project 2, belongs to
project 1, created task 1, is assigned task 2 and holds an unread
notification and a live refresh token; every cascading effect of the
amended claim is realized. -/
theorem C6_witness :
    (∀ u ∈ dbC6wres.users, u.id = 2 → u.isActive = false ∧ u.deletedAt = some 9) ∧
    (∀ p ∈ dbC6wres.projects, p.ownerId = 2 → p.status = ProjStatus.deleted) ∧
    (∀ m ∈ dbC6wres.members, m.userId = 2 → m.isActive = false) ∧
    (∀ t ∈ dbC6wres.tasks, (t.createdById = 2 ∨ t.assigneeId = some 2) →
      t.deletedAt ≠ none) ∧
    (∀ n ∈ dbC6wres.notifications, n.userId = 2 → n.status ≠ NotifStatus.unread) ∧
    (∀ tk ∈ dbC6wres.tokens, tk.userId = 2 → tk.isRevoked = true) := by
  have h := C6_amended dbC6w 2 1 9 dbC6wres
    "User and all related data soft deleted successfully" (by decide)
  exact ⟨h.1, h.2.1, h.2.2.1, h.2.2.2.1, h.2.2.2.2.1, h.2.2.2.2.2.2⟩

/-- C5, amended: the deleteProject defined in the same service as
softDeleteProject forwards to it, so the two have exactly the same effect
on the stored state: project marked deleted, active memberships
deactivated with leftAt stamped, boards and the columns of the project's
boards deactivated, project tasks soft-deleted and unread project
notifications archived.  The standalone deleteProject of
projects.service.ts, by contrast, performs none of the cascade (see the
counterexample). -/
theorem C5_amended (db : DB) (id userId now : Nat) (db2 : DB) (msg : String)
    (hcall : deleteProject db id userId now = .ok (db2, msg)) :
    softDeleteProject db id userId now = .ok (db2, msg) ∧
    (∀ p ∈ db2.projects, p.id = id → p.status = ProjStatus.deleted) ∧
    (∀ m ∈ db.members, m.projectId = id → m.isActive = true →
      { m with isActive := false, leftAt := some now } ∈ db2.members) ∧
    (∀ m ∈ db2.members, m.projectId = id → m.isActive = false) ∧
    (∀ b ∈ db2.boards, b.projectId = id → b.isActive = false) ∧
    (∀ c ∈ db2.columns, (∃ b ∈ db2.boards, b.id = c.boardId ∧ b.projectId = id) →
      c.isActive = false) ∧
    (∀ t ∈ db2.tasks, t.projectId = id → t.deletedAt ≠ none) ∧
    (∀ n ∈ db2.notifications, n.projectId = some id → n.status ≠ NotifStatus.unread) ∧
    (∀ n ∈ db.notifications, n.projectId = some id → n.status = NotifStatus.unread →
      { n with status := NotifStatus.archived } ∈ db2.notifications) := by
  refine ⟨hcall, ?_⟩
  unfold deleteProject softDeleteProject at hcall
  split at hcall
  · simp at hcall
  · rename_i project hproj
    split at hcall
    · simp at hcall
    · rw [Except.ok.injEq, Prod.mk.injEq] at hcall
      obtain ⟨hdb, -⟩ := hcall
      subst hdb
      refine ⟨?_, ?_, ?_, ?_, ?_, ?_, ?_, ?_⟩
      · intro p hp hid
        simp only [List.mem_map] at hp
        obtain ⟨p0, hp0, rfl⟩ := hp
        by_cases h : (p0.id == project.id) = true
        · simp [h]
        · have h' := Bool.eq_false_iff.mpr h
          simp [h'] at hid ⊢
          unfold findProjectById at hproj
          split at hproj
          · simp at hproj
          · rename_i project1 hfind1
            split at hproj
            · rw [Except.ok.injEq] at hproj
              subst hproj
              have hpred := List.find?_some hfind1
              rw [Bool.and_eq_true, beq_iff_eq] at hpred
              exact absurd (hid.trans hpred.1.symm) (by simpa using h')
            · simp at hproj
      · intro m hm hpid hact
        refine List.mem_map.mpr ⟨m, hm, ?_⟩
        simp [hpid, hact]
      · intro m hm hid
        simp only [List.mem_map] at hm
        obtain ⟨m0, hm0, rfl⟩ := hm
        by_cases h : (m0.projectId == id && m0.isActive) = true
        · simp [h]
        · have h' := Bool.eq_false_iff.mpr h
          simp [h'] at hid ⊢
          rw [Bool.and_eq_false_iff] at h'
          rcases h' with h' | h'
          · exact absurd hid (by simpa using h')
          · exact h'
      · intro b hb hid
        simp only [List.mem_map] at hb
        obtain ⟨b0, hb0, rfl⟩ := hb
        by_cases h : (b0.projectId == id && b0.isActive) = true
        · simp [h]
        · have h' := Bool.eq_false_iff.mpr h
          simp [h'] at hid ⊢
          rw [Bool.and_eq_false_iff] at h'
          rcases h' with h' | h'
          · exact absurd hid (by simpa using h')
          · exact h'
      · intro c hc hex
        obtain ⟨b, hb, hbid, hbpid⟩ := hex
        have hbmem : b ∈ (db.boards.map (fun b =>
            if b.projectId == id && b.isActive then { b with isActive := false } else b)).filter
            (fun b => b.projectId == id) := by
          rw [List.mem_filter]
          exact ⟨hb, by simp [hbpid]⟩
        have hne : ¬((db.boards.map (fun b =>
            if b.projectId == id && b.isActive then { b with isActive := false } else b)).filter
            (fun b => b.projectId == id)).isEmpty = true := by
          intro hempty
          rw [List.isEmpty_iff] at hempty
          rw [hempty] at hbmem
          exact absurd hbmem (List.not_mem_nil b)
        rw [if_neg hne] at hc
        simp only [List.mem_map] at hc
        obtain ⟨c0, hc0, rfl⟩ := hc
        have hbid' : b.id = c0.boardId := by
          split at hbid <;> exact hbid
        have hcontains : ((((db.boards.map (fun b =>
            if b.projectId == id && b.isActive then { b with isActive := false } else b)).filter
            (fun b => b.projectId == id)).map (·.id)).contains c0.boardId) = true := by
          rw [List.contains_eq_any_beq, List.any_eq_true]
          exact ⟨b.id, List.mem_map.mpr ⟨b, hbmem, rfl⟩, by simp [hbid']⟩
        by_cases hact : c0.isActive = true
        · rw [hcontains, hact]
          simp
        · have hcf : c0.isActive = false := Bool.eq_false_iff.mpr hact
          rw [hcontains, hcf]
          simp [hcf]
      · intro t ht hid
        simp only [List.mem_map] at ht
        obtain ⟨t0, ht0, rfl⟩ := ht
        by_cases h : (t0.projectId == id && t0.deletedAt == none) = true
        · simp [h]
        · have h' := Bool.eq_false_iff.mpr h
          simp [h'] at hid ⊢
          rw [Bool.and_eq_false_iff] at h'
          rcases h' with h' | h'
          · exact absurd hid (by simpa using h')
          · simpa using h'
      · intro n hn hid
        simp only [List.mem_map] at hn
        obtain ⟨n0, hn0, rfl⟩ := hn
        by_cases h : (n0.projectId == some id && n0.status == NotifStatus.unread) = true
        · simp [h]
        · have h' := Bool.eq_false_iff.mpr h
          simp [h'] at hid ⊢
          rw [Bool.and_eq_false_iff] at h'
          rcases h' with h' | h'
          · exact absurd hid (by simpa using h')
          · simpa using h'
      · intro n hn hid hst
        refine List.mem_map.mpr ⟨n, hn, ?_⟩
        simp [hid, hst]

/-- C5, witness: the forwarding deleteProject run on a project with a
member, a board, a column, a task and an unread notification; the call
equals softDeleteProject and every cascading effect is realized. -/
theorem C5_witness :
    softDeleteProject dbC5 1 1 7 =
      .ok (dbC5res, "Project and all related data soft deleted successfully") ∧
    (∀ m ∈ dbC5res.members, m.projectId = 1 → m.isActive = false) ∧
    (∀ b ∈ dbC5res.boards, b.projectId = 1 → b.isActive = false) ∧
    (∀ t ∈ dbC5res.tasks, t.projectId = 1 → t.deletedAt ≠ none) ∧
    (∀ n ∈ dbC5res.notifications, n.projectId = some 1 → n.status ≠ NotifStatus.unread) := by
  have h := C5_amended dbC5 1 1 7 dbC5res
    "Project and all related data soft deleted successfully" (by decide)
  exact ⟨h.1, h.2.2.2.1, h.2.2.2.2.1, h.2.2.2.2.2.2.1, h.2.2.2.2.2.2.2.1⟩

/-- Closed form of checkTaskPermission: it grants exactly the union of the
five rules, first match winning being immaterial because every rule only
grants. -/
theorem checkTaskPermission_iff (db : DB) (task : Task) (userId : Nat) (a : TaskAction) :
    checkTaskPermission db task userId a = true ↔
      ((db.projects.find? (fun p => p.id == task.projectId)).map (·.ownerId) = some userId
        ∨ (db.members.find? (fun m =>
            m.projectId == task.projectId && m.userId == userId && m.isActive)).map (·.role)
            = some ProjRole.admin
        ∨ (task.createdById = userId ∧ (a = TaskAction.update ∨ a = TaskAction.delete))
        ∨ (task.assigneeId = some userId ∧ (a = TaskAction.update ∨ a = TaskAction.comment))
        ∨ ((db.members.find? (fun m =>
            m.projectId == task.projectId && m.userId == userId && m.isActive)).isSome = true
            ∧ (a = TaskAction.read ∨ a = TaskAction.comment))) := by
  simp only [checkTaskPermission]
  split_ifs with h1 h2 h3 h4 h5
  · simp only [true_iff]
    exact Or.inl (beq_iff_eq.mp h1)
  · simp only [true_iff]
    exact Or.inr (Or.inl (beq_iff_eq.mp h2))
  · simp only [true_iff]
    simp only [Bool.and_eq_true, Bool.or_eq_true, beq_iff_eq] at h3
    exact Or.inr (Or.inr (Or.inl h3))
  · simp only [true_iff]
    simp only [Bool.and_eq_true, Bool.or_eq_true, beq_iff_eq] at h4
    exact Or.inr (Or.inr (Or.inr (Or.inl h4)))
  · simp only [true_iff]
    simp only [Bool.and_eq_true, Bool.or_eq_true, beq_iff_eq] at h5
    exact Or.inr (Or.inr (Or.inr (Or.inr h5)))
  · simp only [Bool.false_eq_true, false_iff]
    intro hdisj
    rcases hdisj with h | h | h | h | h
    · exact h1 (beq_iff_eq.mpr h)
    · exact h2 (beq_iff_eq.mpr h)
    · refine h3 ?_
      simp only [Bool.and_eq_true, Bool.or_eq_true, beq_iff_eq]
      exact h
    · refine h4 ?_
      simp only [Bool.and_eq_true, Bool.or_eq_true, beq_iff_eq]
      exact h
    · refine h5 ?_
      simp only [Bool.and_eq_true, Bool.or_eq_true, beq_iff_eq]
      exact h

/-- C9: the task-permission evaluator realizes the五-rule precedence
matrix — owner everything, active admin everything, creator update and
delete, assignee update and comment, any active member read and comment,
everyone else denied; consequently a non-member fetching a task of an
active project is Forbidden, and a plain member with no creator or
assignee relation may read and comment but not update, delete or move. -/
theorem C9_checkTaskPermission_matrix (db : DB) (task : Task) (userId : Nat) :
    (∀ a, checkTaskPermission db task userId a = true ↔
      ((db.projects.find? (fun p => p.id == task.projectId)).map (·.ownerId) = some userId
        ∨ (db.members.find? (fun m =>
            m.projectId == task.projectId && m.userId == userId && m.isActive)).map (·.role)
            = some ProjRole.admin
        ∨ (task.createdById = userId ∧ (a = TaskAction.update ∨ a = TaskAction.delete))
        ∨ (task.assigneeId = some userId ∧ (a = TaskAction.update ∨ a = TaskAction.comment))
        ∨ ((db.members.find? (fun m =>
            m.projectId == task.projectId && m.userId == userId && m.isActive)).isSome = true
            ∧ (a = TaskAction.read ∨ a = TaskAction.comment)))) ∧
    (∀ taskId task2 project2,
      db.tasks.find? (fun t => t.id == taskId) = some task2 →
      db.projects.find? (fun p => p.id == task2.projectId && p.status == ProjStatus.active)
        = some project2 →
      project2.ownerId ≠ userId →
      db.members.find? (fun m =>
        m.projectId == task2.projectId && m.userId == userId && m.isActive) = none →
      getTaskById db taskId userId =
        .error (.forbidden "You do not have access to this project")) ∧
    (∀ m0, db.members.find? (fun m =>
        m.projectId == task.projectId && m.userId == userId && m.isActive) = some m0 →
      m0.role ≠ ProjRole.admin →
      (db.projects.find? (fun p => p.id == task.projectId)).map (·.ownerId) ≠ some userId →
      task.createdById ≠ userId →
      task.assigneeId ≠ some userId →
      checkTaskPermission db task userId TaskAction.read = true ∧
      checkTaskPermission db task userId TaskAction.comment = true ∧
      checkTaskPermission db task userId TaskAction.update = false ∧
      checkTaskPermission db task userId TaskAction.delete = false ∧
      checkTaskPermission db task userId TaskAction.move = false) := by
  refine ⟨fun a => checkTaskPermission_iff db task userId a, ?_, ?_⟩
  · intro taskId task2 project2 htask hproj hown hmem
    have hob : (project2.ownerId == userId) = false := beq_eq_false_iff_ne.mpr hown
    simp only [getTaskById, tsCheckProjectAccess, htask, hproj, hob, hmem]
    rfl
  · intro m0 hm0 hrole hown hcreated hassignee
    have hkill : ∀ a, ((a = TaskAction.read ∨ a = TaskAction.comment) → False) →
        checkTaskPermission db task userId a = false := by
      intro a hrc
      cases hcb : checkTaskPermission db task userId a
      · rfl
      · exfalso
        rcases (checkTaskPermission_iff db task userId a).mp hcb with h | h | h | h | h
        · exact hown h
        · rw [hm0] at h
          simp only [Option.map_some'] at h
          rw [Option.some.injEq] at h
          exact hrole h
        · exact hcreated h.1
        · exact hassignee h.1
        · exact hrc h.2
    have hgrant : ∀ a, (a = TaskAction.read ∨ a = TaskAction.comment) →
        checkTaskPermission db task userId a = true := by
      intro a ha
      exact (checkTaskPermission_iff db task userId a).mpr
        (Or.inr (Or.inr (Or.inr (Or.inr ⟨by rw [hm0]; rfl, ha⟩))))
    refine ⟨hgrant _ (Or.inl rfl), hgrant _ (Or.inr rfl), ?_, ?_, ?_⟩
    · exact hkill _ (by rintro (h | h) <;> exact TaskAction.noConfusion h)
    · exact hkill _ (by rintro (h | h) <;> exact TaskAction.noConfusion h)
    · exact hkill _ (by rintro (h | h) <;> exact TaskAction.noConfusion h)

/-- C9, witness: in the concrete project, the plain member 5 (not creator,
not assignee) may read and comment but not update, delete or move, and the
outsider 6 receives Forbidden from getTaskById on the active project. -/
theorem C9_witness :
    checkTaskPermission dbC9 taskC9 5 TaskAction.read = true ∧
    checkTaskPermission dbC9 taskC9 5 TaskAction.comment = true ∧
    checkTaskPermission dbC9 taskC9 5 TaskAction.update = false ∧
    checkTaskPermission dbC9 taskC9 5 TaskAction.delete = false ∧
    checkTaskPermission dbC9 taskC9 5 TaskAction.move = false ∧
    getTaskById dbC9 1 6 = .error (.forbidden "You do not have access to this project") := by
  have h5 := (C9_checkTaskPermission_matrix dbC9 taskC9 5).2.2
    ⟨1, 5, ProjRole.member, true, none⟩ (by decide) (by decide) (by decide)
    (by decide) (by decide)
  have h6 := (C9_checkTaskPermission_matrix dbC9 taskC9 6).2.1
    1 taskC9 ⟨1, 1, ProjStatus.active⟩ (by decide) (by decide) (by decide) (by decide)
  exact ⟨h5.1, h5.2.1, h5.2.2.1, h5.2.2.2.1, h5.2.2.2.2, h6⟩

/-- Value of skipBump when the counter starts at zero. -/
theorem skipBump_zero (o k : Nat) : skipBump o 0 k = if k < o then k else k + 1 := by
  simp [skipBump]

/-- The first counter value emitted by the renumbering loop is skipBump at
position zero. -/
theorem skipBump_head (o cnt : Nat) : (if cnt == o then cnt + 1 else cnt) = skipBump o cnt 0 := by
  simp only [skipBump, Nat.add_zero]
  by_cases hc : cnt = o
  · subst hc
    simp
  · rw [beq_eq_false_iff_ne.mpr hc]
    simp only [Bool.false_eq_true, if_false]
    rw [if_pos (by omega)]

/-- Restarting the loop after one emission shifts the position by one. -/
theorem skipBump_step (o cnt k : Nat) :
    skipBump o (skipBump o cnt 0 + 1) k = skipBump o cnt (k + 1) := by
  simp only [skipBump]
  split_ifs <;> omega

/-- Keys recorded by the renumbering loop: the ids of the non-moved tasks,
in traversal order. -/
theorem helperAssign_fst (ts : List Task) (movedId o : Nat) : ∀ cnt,
    (helperAssign ts movedId o cnt).map Prod.fst =
      (ts.filter (fun t => t.id != movedId)).map (·.id) := by
  induction ts with
  | nil => intro cnt; rfl
  | cons t ts ih =>
    intro cnt
    by_cases h : (t.id == movedId) = true
    · have h' : (t.id != movedId) = false := by simp [bne]; simpa using h
      simp only [helperAssign, h, if_true, List.filter_cons, h', Bool.false_eq_true, if_false]
      exact ih cnt
    · have hb : (t.id == movedId) = false := Bool.eq_false_iff.mpr h
      have h' : (t.id != movedId) = true := by simp [bne, hb]
      simp only [helperAssign, hb, Bool.false_eq_true, if_false, List.filter_cons, h', if_true,
        List.map_cons]
      exact congrArg (t.id :: ·) (ih _)

/-- Values recorded by the renumbering loop: skipBump applied to the
positions 0 to M-1, M the number of non-moved tasks. -/
theorem helperAssign_snd (ts : List Task) (movedId o : Nat) : ∀ cnt,
    (helperAssign ts movedId o cnt).map Prod.snd =
      (List.range ((ts.filter (fun t => t.id != movedId)).length)).map (skipBump o cnt) := by
  induction ts with
  | nil => intro cnt; rfl
  | cons t ts ih =>
    intro cnt
    by_cases h : (t.id == movedId) = true
    · have h' : (t.id != movedId) = false := by simp [bne]; simpa using h
      simp only [helperAssign, h, if_true, List.filter_cons, h', Bool.false_eq_true, if_false]
      exact ih cnt
    · have hb : (t.id == movedId) = false := Bool.eq_false_iff.mpr h
      have h' : (t.id != movedId) = true := by simp [bne, hb]
      simp only [helperAssign, hb, Bool.false_eq_true, if_false, List.filter_cons, h', if_true,
        List.map_cons, List.length_cons, List.range_succ_eq_map, List.map_map]
      congr 1
      · exact skipBump_head o cnt
      · rw [ih]
        apply List.map_congr_left
        intro k _
        simp only [Function.comp, Nat.succ_eq_add_one]
        rw [skipBump_head, skipBump_step]

/-- Looking up the k-th key of an association list with distinct keys gives
the k-th value. -/
theorem lookup_get_pairs (ps : List (Nat × Nat)) (h : (ps.map Prod.fst).Nodup) (k : Nat)
    (hk : k < ps.length) : ps.lookup (ps.get ⟨k, hk⟩).1 = some (ps.get ⟨k, hk⟩).2 := by
  induction ps generalizing k with
  | nil => exact absurd hk (by simp)
  | cons p ps ih =>
    rw [List.map_cons, List.nodup_cons] at h
    cases k with
    | zero => simp [List.lookup]
    | succ k =>
      have hk' : k < ps.length := by simpa using hk
      have hmem : (ps.get ⟨k, hk'⟩).1 ∈ ps.map Prod.fst :=
        List.mem_map.mpr ⟨ps.get ⟨k, hk'⟩, ps.get_mem _ _, rfl⟩
      have hne : ((ps.get ⟨k, hk'⟩).1 == p.1) = false :=
        beq_eq_false_iff_ne.mpr (fun he => h.1 (he ▸ hmem))
      simp only [List.get_cons_succ]
      rw [List.lookup, hne]
      exact ih h.2 k hk'

/-- Two lists of tasks that are permutations of each other, both sorted by
order, with no duplicate order, are equal. -/
theorem eq_of_perm_sorted_orders (l₁ : List Task) : ∀ l₂, List.Perm l₁ l₂ →
    l₁.Sorted (fun a b => a.order ≤ b.order) → l₂.Sorted (fun a b => a.order ≤ b.order) →
    (l₁.map (·.order)).Nodup → l₁ = l₂ := by
  induction l₁ with
  | nil =>
    intro l₂ h _ _ _
    exact (List.perm_nil.mp h.symm).symm
  | cons a t ih =>
    intro l₂ h s₁ s₂ hn
    cases l₂ with
    | nil => exact absurd (List.perm_nil.mp h) (by simp)
    | cons b t₂ =>
      rw [List.map_cons, List.nodup_cons] at hn
      have hab : a = b := by
        have ha2 : a ∈ b :: t₂ := h.mem_iff.mp (List.mem_cons_self a t)
        have hb1 : b ∈ a :: t := h.symm.mem_iff.mp (List.mem_cons_self b t₂)
        rcases List.mem_cons.mp ha2 with he | ha2'
        · exact he
        rcases List.mem_cons.mp hb1 with he | hb1'
        · exact he.symm
        have h1 : a.order ≤ b.order := (List.sorted_cons.mp s₁).1 b hb1'
        have h2 : b.order ≤ a.order := (List.sorted_cons.mp s₂).1 a ha2'
        have heq : b.order = a.order := Nat.le_antisymm h2 h1
        exact absurd (List.mem_map.mpr ⟨b, hb1', heq⟩) hn.1
      subst hab
      rw [ih t₂ h.cons_inv (List.sorted_cons.mp s₁).2 (List.sorted_cons.mp s₂).2 hn.2]

/-- Mapping each element of a duplicate-free list to its index gives the
range of the length. -/
theorem map_indexOf_self (l : List Nat) (h : l.Nodup) :
    l.map (fun a => l.indexOf a) = List.range l.length := by
  induction l with
  | nil => rfl
  | cons a t ih =>
    rw [List.nodup_cons] at h
    rw [List.map_cons, List.indexOf_cons_self, List.length_cons, List.range_succ_eq_map]
    congr 1
    have hstep : t.map (fun b => (a :: t).indexOf b) = t.map (fun b => (t.indexOf b) + 1) := by
      apply List.map_congr_left
      intro b hb
      have hba : a ≠ b := fun he => h.1 (he ▸ hb)
      rw [List.indexOf_cons_ne _ hba]
    rw [hstep, show (fun b => t.indexOf b + 1) = ((fun x => x + 1) ∘ fun b => t.indexOf b) from rfl,
      ← List.map_map, ih h.2]

/-- Tasks of a duplicate-free store are determined by their id. -/
theorem eq_of_mem_id (l : List Task) (h : (l.map (·.id)).Nodup) :
    ∀ a ∈ l, ∀ b ∈ l, a.id = b.id → a = b := by
  induction l with
  | nil => intro a ha; exact absurd ha (List.not_mem_nil a)
  | cons x t ih =>
    rw [List.map_cons, List.nodup_cons] at h
    intro a ha b hb he
    rcases List.mem_cons.mp ha with rfl | ha'
    · rcases List.mem_cons.mp hb with rfl | hb'
      · rfl
      · exact absurd (List.mem_map.mpr ⟨b, hb', he.symm⟩) h.1
    · rcases List.mem_cons.mp hb with rfl | hb'
      · exact absurd (List.mem_map.mpr ⟨a, ha', he⟩) h.1
      · exact ih h.2 a ha' b hb' he

/-- Filtering a duplicate-free store by the id of one of its rows returns
exactly that row. -/
theorem filter_id_singleton (l : List Task) (h : (l.map (·.id)).Nodup) (a : Task) (ha : a ∈ l) :
    l.filter (fun t => t.id == a.id) = [a] := by
  induction l with
  | nil => exact absurd ha (List.not_mem_nil a)
  | cons x t ih =>
    rw [List.map_cons, List.nodup_cons] at h
    rcases List.mem_cons.mp ha with rfl | ha'
    · rw [List.filter_cons_of_pos (by simp)]
      have hrest : t.filter (fun t => t.id == a.id) = [] := by
        rw [List.filter_eq_nil_iff]
        intro b hb hba
        exact h.1 (List.mem_map.mpr ⟨b, hb, beq_iff_eq.mp hba⟩)
      rw [hrest]
    · have hxa : (x.id == a.id) = false :=
        beq_eq_false_iff_ne.mpr (fun he => h.1 (List.mem_map.mpr ⟨a, ha', he.symm⟩))
      rw [List.filter_cons_of_neg (by simp [hxa])]
      exact ih h.2 ha'

/-- Inserting the reserved slot back into the skipped range gives the full
dense range. -/
theorem perm_skip (M : Nat) : ∀ o, o ≤ M →
    List.Perm (o :: (List.range M).map (fun k => if k < o then k else k + 1))
      (List.range (M + 1)) := by
  induction M with
  | zero =>
    intro o h
    have ho : o = 0 := Nat.le_zero.mp h
    subst ho
    rw [show List.range 1 = [0] from rfl]
    simp
  | succ M ih =>
    intro o h
    rcases Nat.lt_or_ge o (M + 1) with ho | ho
    · have hoM : o ≤ M := Nat.lt_succ_iff.mp ho
      have h1 : o :: (List.range (M + 1)).map (fun k => if k < o then k else k + 1) =
          (o :: (List.range M).map (fun k => if k < o then k else k + 1)) ++ [M + 1] := by
        rw [List.range_succ, List.map_append, List.map_cons, List.map_nil]
        rw [if_neg (Nat.not_lt.mpr hoM)]
        rfl
      rw [h1, List.range_succ]
      exact List.Perm.append (ih o hoM) (List.Perm.refl [M + 1])
    · have ho' : o = M + 1 := Nat.le_antisymm h ho
      subst ho'
      have h1 : (List.range (M + 1)).map (fun k => if k < M + 1 then k else k + 1) =
          List.range (M + 1) := by
        have := List.map_congr_left (l := List.range (M + 1))
          (f := fun k => if k < M + 1 then k else k + 1) (g := fun k => k)
          (fun k hk => if_pos (List.mem_range.mp hk))
        rw [this]
        exact List.map_id' _
      rw [h1]
      have h2 : List.range (M + 1 + 1) = List.range (M + 1) ++ [M + 1] := List.range_succ (M + 1)
      rw [h2]
      exact (List.perm_append_singleton _ _).symm

/-- Saving an assignment never changes a row's id. -/
theorem applyAssigns_id (assigns : List (Nat × Nat)) (t : Task) :
    (applyAssigns assigns t).id = t.id := by
  unfold applyAssigns
  cases assigns.lookup t.id <;> rfl

/-- Saving an assignment never changes a row's column. -/
theorem applyAssigns_columnId (assigns : List (Nat × Nat)) (t : Task) :
    (applyAssigns assigns t).columnId = t.columnId := by
  unfold applyAssigns
  cases assigns.lookup t.id <;> rfl

/-- Saving an assignment never changes a row's deletion marker. -/
theorem applyAssigns_deletedAt (assigns : List (Nat × Nat)) (t : Task) :
    (applyAssigns assigns t).deletedAt = t.deletedAt := by
  unfold applyAssigns
  cases assigns.lookup t.id <;> rfl

/-- A key outside the recorded keys looks up to nothing. -/
theorem lookup_eq_none_of_not_mem_keys (ps : List (Nat × Nat)) (a : Nat)
    (h : a ∉ ps.map Prod.fst) : ps.lookup a = none := by
  induction ps with
  | nil => rfl
  | cons p ps ih =>
    rw [List.map_cons, List.mem_cons, not_or] at h
    rw [List.lookup, beq_eq_false_iff_ne.mpr h.1]
    exact ih h.2

/-- A row whose id was not recorded is untouched by the save step. -/
theorem applyAssigns_untouched (assigns : List (Nat × Nat)) (t : Task)
    (h : t.id ∉ assigns.map Prod.fst) : applyAssigns assigns t = t := by
  unfold applyAssigns
  rw [lookup_eq_none_of_not_mem_keys assigns t.id h]

/-- Applying the recorded assignments to the rows they were recorded for
produces exactly the recorded order values, in order. -/
theorem map_applyAssigns_eq_vals : ∀ (ps : List (Nat × Nat)) (os : List Task),
    ps.map Prod.fst = os.map (·.id) → (ps.map Prod.fst).Nodup →
    os.map (fun t => (applyAssigns ps t).order) = ps.map Prod.snd := by
  intro ps
  induction ps with
  | nil =>
    intro os hkeys _
    cases os with
    | nil => rfl
    | cons t os' => simp at hkeys
  | cons p ps' ih =>
    intro os hkeys hnodup
    cases os with
    | nil => simp at hkeys
    | cons t os' =>
      rw [List.map_cons, List.map_cons] at hkeys
      have h1 : p.1 = t.id := by
        injection hkeys
      have h2 : ps'.map Prod.fst = os'.map (·.id) := by
        injection hkeys
      rw [List.map_cons, List.nodup_cons] at hnodup
      rw [List.map_cons, List.map_cons]
      congr 1
      · have hb : (t.id == p.1) = true := beq_iff_eq.mpr h1.symm
        simp [applyAssigns, List.lookup, hb]
      · have hcong : os'.map (fun t' => (applyAssigns (p :: ps') t').order)
            = os'.map (fun t' => (applyAssigns ps' t').order) := by
          apply List.map_congr_left
          intro t' ht'
          have htid : t'.id ∈ ps'.map Prod.fst := by
            rw [h2]
            exact List.mem_map.mpr ⟨t', ht', rfl⟩
          have hne : (t'.id == p.1) = false :=
            beq_eq_false_iff_ne.mpr (fun he => hnodup.1 (he ▸ htid))
          simp [applyAssigns, List.lookup, hne]
        rw [hcong]
        exact ih os' h2 hnodup.2

/-- When no task is soft-deleted, the active orders of a column are just
its orders. -/
theorem activeColOrders_eq (db : DB) (c : Nat) (h : ∀ t ∈ db.tasks, t.deletedAt = none) :
    activeColOrders db c = colOrders db c := by
  unfold activeColOrders colOrders
  congr 1
  apply List.filter_congr
  intro t ht
  simp [h t ht]

/-- Unfolded task list of the renumbering helper. -/
theorem helper_tasks (db : DB) (c tid o : Nat) :
    (reorderTasksInColumnHelper db c tid o).tasks =
      db.tasks.map (applyAssigns (helperAssign
        (sortByOrder (db.tasks.filter (fun t => t.columnId == c))) tid o 0)) := rfl

/-- The renumbering helper keeps the stored ids. -/
theorem helper_ids (db : DB) (c tid o : Nat) :
    (reorderTasksInColumnHelper db c tid o).tasks.map (·.id) = db.tasks.map (·.id) := by
  rw [helper_tasks, List.map_map]
  apply List.map_congr_left
  intro t _
  simp [Function.comp, applyAssigns_id]

/-- The renumbering helper keeps every row alive that was alive. -/
theorem helper_allActive (db : DB) (c tid o : Nat) (h : ∀ t ∈ db.tasks, t.deletedAt = none) :
    ∀ t ∈ (reorderTasksInColumnHelper db c tid o).tasks, t.deletedAt = none := by
  intro t ht
  rw [helper_tasks] at ht
  obtain ⟨s, hs, rfl⟩ := List.mem_map.mp ht
  rw [applyAssigns_deletedAt]
  exact h s hs

/-- The renumbering helper leaves every other column untouched. -/
theorem helper_other_cols (db : DB) (c tid o c' : Nat) (hne : c' ≠ c)
    (hids : (db.tasks.map (·.id)).Nodup) :
    (reorderTasksInColumnHelper db c tid o).tasks.filter (fun t => t.columnId == c')
      = db.tasks.filter (fun t => t.columnId == c') := by
  rw [helper_tasks, List.filter_map]
  have h1 : db.tasks.filter ((fun t => t.columnId == c') ∘ applyAssigns (helperAssign
      (sortByOrder (db.tasks.filter (fun t => t.columnId == c))) tid o 0))
      = db.tasks.filter (fun t => t.columnId == c') := by
    apply List.filter_congr
    intro t _
    simp [Function.comp, applyAssigns_columnId]
  rw [h1]
  have hpt : ∀ t ∈ db.tasks.filter (fun t => t.columnId == c'),
      applyAssigns (helperAssign
        (sortByOrder (db.tasks.filter (fun t => t.columnId == c))) tid o 0) t = id t := by
    intro t ht
    rw [List.mem_filter] at ht
    apply applyAssigns_untouched
    rw [helperAssign_fst]
    intro hmem
    obtain ⟨t', ht', htid⟩ := List.mem_map.mp hmem
    rw [List.mem_filter] at ht'
    have ht'F : t' ∈ db.tasks.filter (fun t => t.columnId == c) := by
      have := ht'.1
      rwa [sortByOrder, List.mem_insertionSort] at this
    rw [List.mem_filter] at ht'F
    have : t = t' := eq_of_mem_id db.tasks hids t ht.1 t' ht'F.1 htid.symm
    subst this
    exact hne (by
      have h2 := beq_iff_eq.mp ht.2
      have h3 := beq_iff_eq.mp ht'F.2
      rw [← h2, h3])
  rw [List.map_congr_left hpt, List.map_id]

/-- Order values of the renumbered column: the moved task's explicit order
followed by the dense skipped range over the remaining tasks. -/
theorem helper_col_orders (db : DB) (c tid o : Nat)
    (hids : (db.tasks.map (·.id)).Nodup)
    (mv : Task) (hmv : mv ∈ db.tasks) (hmvid : mv.id = tid)
    (hmvcol : mv.columnId = c) (hmvord : mv.order = o) :
    List.Perm (colOrders (reorderTasksInColumnHelper db c tid o) c)
      (o :: (List.range ((db.tasks.filter (fun t => t.columnId == c)).length - 1)).map
        (fun k => if k < o then k else k + 1)) ∧
    0 < (db.tasks.filter (fun t => t.columnId == c)).length := by
  have hmvfil : mv ∈ db.tasks.filter (fun t => t.columnId == c) :=
    List.mem_filter.mpr ⟨hmv, by simp [hmvcol]⟩
  have hpos : 0 < (db.tasks.filter (fun t => t.columnId == c)).length :=
    List.length_pos.mpr (fun he => absurd (he ▸ hmvfil) (List.not_mem_nil mv))
  refine ⟨?_, hpos⟩
  have hFp : List.Perm (db.tasks.filter (fun t => t.columnId == c))
      (sortByOrder (db.tasks.filter (fun t => t.columnId == c))) :=
    (List.perm_insertionSort _ _).symm
  have hFids : ((sortByOrder (db.tasks.filter (fun t => t.columnId == c))).map (·.id)).Nodup := by
    refine (hFp.map (·.id)).nodup ?_
    exact List.Nodup.sublist ((List.filter_sublist _).map _) hids
  have hmvF : mv ∈ sortByOrder (db.tasks.filter (fun t => t.columnId == c)) :=
    hFp.mem_iff.mp hmvfil
  have hFm : (sortByOrder (db.tasks.filter (fun t => t.columnId == c))).filter
      (fun t => t.id == tid) = [mv] := by
    have h := filter_id_singleton _ hFids mv hmvF
    rw [hmvid] at h
    exact h
  have hsplit : List.Perm (sortByOrder (db.tasks.filter (fun t => t.columnId == c)))
      (mv :: (sortByOrder (db.tasks.filter (fun t => t.columnId == c))).filter
        (fun t => t.id != tid)) := by
    have h1 := List.filter_append_perm (fun t => t.id == tid)
      (sortByOrder (db.tasks.filter (fun t => t.columnId == c)))
    rw [hFm] at h1
    exact h1.symm
  have hkeys : (helperAssign (sortByOrder (db.tasks.filter (fun t => t.columnId == c)))
      tid o 0).map Prod.fst =
      ((sortByOrder (db.tasks.filter (fun t => t.columnId == c))).filter
        (fun t => t.id != tid)).map (·.id) :=
    helperAssign_fst _ tid o 0
  have hosids : (((sortByOrder (db.tasks.filter (fun t => t.columnId == c))).filter
      (fun t => t.id != tid)).map (·.id)).Nodup :=
    List.Nodup.sublist ((List.filter_sublist _).map _) hFids
  have hkeysnodup : ((helperAssign (sortByOrder (db.tasks.filter (fun t => t.columnId == c)))
      tid o 0).map Prod.fst).Nodup := by
    rw [hkeys]
    exact hosids
  -- orders of the filtered result
  have hfilter : ((reorderTasksInColumnHelper db c tid o).tasks).filter
      (fun t => t.columnId == c)
      = (db.tasks.filter (fun t => t.columnId == c)).map
        (applyAssigns (helperAssign
          (sortByOrder (db.tasks.filter (fun t => t.columnId == c))) tid o 0)) := by
    rw [helper_tasks, List.filter_map]
    congr 1
    apply List.filter_congr
    intro t _
    simp [Function.comp, applyAssigns_columnId]
  have hperm1 : List.Perm (colOrders (reorderTasksInColumnHelper db c tid o) c)
      (((mv :: (sortByOrder (db.tasks.filter (fun t => t.columnId == c))).filter
        (fun t => t.id != tid)).map
        (applyAssigns (helperAssign
          (sortByOrder (db.tasks.filter (fun t => t.columnId == c))) tid o 0))).map (·.order)) := by
    rw [colOrders, hfilter]
    exact ((hFp.trans hsplit).map _).map _
  -- moved row keeps order o
  have hmv_untouched : applyAssigns (helperAssign
      (sortByOrder (db.tasks.filter (fun t => t.columnId == c))) tid o 0) mv = mv := by
    apply applyAssigns_untouched
    rw [hkeys]
    intro hmem
    obtain ⟨t', ht', htid⟩ := List.mem_map.mp hmem
    rw [List.mem_filter] at ht'
    have := ht'.2
    rw [hmvid] at htid
    simp [bne, htid] at this
  -- other rows get the recorded values
  have hothers : ((sortByOrder (db.tasks.filter (fun t => t.columnId == c))).filter
      (fun t => t.id != tid)).map (fun t => (applyAssigns (helperAssign
        (sortByOrder (db.tasks.filter (fun t => t.columnId == c))) tid o 0) t).order)
      = (List.range (((sortByOrder (db.tasks.filter (fun t => t.columnId == c))).filter
        (fun t => t.id != tid)).length)).map (skipBump o 0) := by
    rw [map_applyAssigns_eq_vals _ _ hkeys hkeysnodup]
    exact helperAssign_snd _ tid o 0
  -- length bookkeeping
  have hlen : ((sortByOrder (db.tasks.filter (fun t => t.columnId == c))).filter
      (fun t => t.id != tid)).length
      = (db.tasks.filter (fun t => t.columnId == c)).length - 1 := by
    have h1 := (hFp.trans hsplit).length_eq
    rw [List.length_cons] at h1
    omega
  refine hperm1.trans ?_
  rw [List.map_cons, List.map_cons, List.map_map, hmv_untouched, hmvord]
  have hvals : ((sortByOrder (db.tasks.filter (fun t => t.columnId == c))).filter
      (fun t => t.id != tid)).map ((·.order) ∘ (applyAssigns (helperAssign
        (sortByOrder (db.tasks.filter (fun t => t.columnId == c))) tid o 0)))
      = (List.range ((db.tasks.filter (fun t => t.columnId == c)).length - 1)).map
        (fun k => if k < o then k else k + 1) := by
    rw [show ((·.order) ∘ (applyAssigns (helperAssign
        (sortByOrder (db.tasks.filter (fun t => t.columnId == c))) tid o 0)))
        = (fun t => (applyAssigns (helperAssign
          (sortByOrder (db.tasks.filter (fun t => t.columnId == c))) tid o 0) t).order)
      from rfl]
    rw [hothers, hlen]
    apply List.map_congr_left
    intro k _
    exact skipBump_zero o k
  rw [hvals]

/-- The column-and-order update of moveTask keeps the stored ids. -/
theorem colUpdate_ids (db : DB) (tid c o : Nat) :
    ((db.tasks.map (fun t =>
      if t.id == tid then { t with columnId := c, order := o } else t)).map (·.id))
      = db.tasks.map (·.id) := by
  rw [List.map_map]
  apply List.map_congr_left
  intro t _
  simp only [Function.comp]
  split <;> rfl

/-- The column-and-order update of moveTask keeps every row alive. -/
theorem colUpdate_allActive (db : DB) (tid c o : Nat)
    (hact : ∀ t ∈ db.tasks, t.deletedAt = none) :
    ∀ t ∈ db.tasks.map (fun t =>
      if t.id == tid then { t with columnId := c, order := o } else t), t.deletedAt = none := by
  intro t ht
  obtain ⟨s, hs, rfl⟩ := List.mem_map.mp ht
  split <;> exact hact s hs

/-- The moved row after the column-and-order update. -/
theorem colUpdate_mv_mem (db : DB) (tid c o : Nat) (task : Task) (htask : task ∈ db.tasks)
    (hid : task.id = tid) :
    { task with columnId := c, order := o } ∈ db.tasks.map (fun t =>
      if t.id == tid then { t with columnId := c, order := o } else t) := by
  refine List.mem_map.mpr ⟨task, htask, ?_⟩
  rw [if_pos (beq_iff_eq.mpr hid)]

/-- The other rows of the target column are not changed by the
column-and-order update. -/
theorem colUpdate_filter_ne (db : DB) (tid c o : Nat) :
    (db.tasks.map (fun t =>
      if t.id == tid then { t with columnId := c, order := o } else t)).filter
        (fun t => t.columnId == c && t.id != tid)
      = db.tasks.filter (fun t => t.columnId == c && t.id != tid) := by
  rw [List.filter_map]
  have h1 : db.tasks.filter ((fun t => t.columnId == c && t.id != tid) ∘
      (fun t => if t.id == tid then { t with columnId := c, order := o } else t))
      = db.tasks.filter (fun t => t.columnId == c && t.id != tid) := by
    apply List.filter_congr
    intro t _
    simp only [Function.comp]
    by_cases h : (t.id == tid) = true
    · rw [if_pos h]
      have hb : (t.id != tid) = false := by simp [bne, h]
      simp [hb]
    · rw [if_neg h]
  rw [h1]
  have hpt : ∀ t ∈ db.tasks.filter (fun t => t.columnId == c && t.id != tid),
      (fun t => if t.id == tid then { t with columnId := c, order := o } else t) t = id t := by
    intro t ht
    rw [List.mem_filter] at ht
    have h2 : (t.id != tid) = true := by
      have h4 := ht.2
      simp only [Bool.and_eq_true] at h4
      exact h4.2
    have h3 : (t.id == tid) = false := by simpa [bne] using h2
    simp [h3]
  rw [List.map_congr_left hpt, List.map_id]

/-- When the moved task already sits in column c, every other column is
untouched by the column-and-order update. -/
theorem colUpdate_filter_other (db : DB) (tid c o c' : Nat) (hne : c' ≠ c)
    (task : Task) (htask : task ∈ db.tasks) (hid : task.id = tid) (hcol : task.columnId = c)
    (hids : (db.tasks.map (·.id)).Nodup) :
    (db.tasks.map (fun t =>
      if t.id == tid then { t with columnId := c, order := o } else t)).filter
        (fun t => t.columnId == c')
      = db.tasks.filter (fun t => t.columnId == c') := by
  rw [List.filter_map]
  have h1 : db.tasks.filter ((fun t => t.columnId == c') ∘
      (fun t => if t.id == tid then { t with columnId := c, order := o } else t))
      = db.tasks.filter (fun t => t.columnId == c') := by
    apply List.filter_congr
    intro t ht
    simp only [Function.comp]
    by_cases h : (t.id == tid) = true
    · rw [if_pos h]
      have hteq : t = task := eq_of_mem_id db.tasks hids t ht task htask
        ((beq_iff_eq.mp h).trans hid.symm)
      subst hteq
      have hc1 : (c == c') = false := beq_eq_false_iff_ne.mpr (Ne.symm hne)
      have hc2 : (t.columnId == c') = false := by
        rw [hcol]
        exact hc1
      simp [hc1, hc2]
    · rw [if_neg h]
  rw [h1]
  have hpt : ∀ t ∈ db.tasks.filter (fun t => t.columnId == c'),
      (fun t => if t.id == tid then { t with columnId := c, order := o } else t) t = id t := by
    intro t ht
    rw [List.mem_filter] at ht
    by_cases h : (t.id == tid) = true
    · have hteq : t = task := eq_of_mem_id db.tasks hids t ht.1 task htask
        ((beq_iff_eq.mp h).trans hid.symm)
      subst hteq
      rw [hcol] at ht
      exact absurd (beq_iff_eq.mp ht.2) (Ne.symm hne)
    · simp [h]
  rw [List.map_congr_left hpt, List.map_id]

/-- Successful moveTask calls and their resulting state: the task exists,
and the state is either the explicit-order renumbering or the append. -/
theorem moveTask_ok_shape (db : DB) (taskId : Nat) (dto : MoveTaskDto) (userId : Nat)
    (db2 : DB) (msg : String) (hcall : moveTask db taskId dto userId = .ok (db2, msg)) :
    ∃ task ∈ db.tasks, task.id = taskId ∧
      ((∃ o, dto.newOrder = some o ∧
          db2 = reorderTasksInColumnHelper
            { db with tasks := db.tasks.map (fun t =>
                if t.id == taskId then { t with columnId := dto.targetColumnId, order := o }
                else t) }
            dto.targetColumnId taskId o) ∨
        (dto.newOrder = none ∧
          db2 = { db with tasks := db.tasks.map (fun t =>
            if t.id == taskId then
              { t with columnId := dto.targetColumnId,
                       order := jsNextOrder (maxOrderIn db dto.targetColumnId) }
            else t) })) := by
  unfold moveTask at hcall
  split at hcall
  · simp at hcall
  · rename_i task hget
    have htaskfacts : task ∈ db.tasks ∧ task.id = taskId := by
      unfold getTaskById at hget
      split at hget
      · simp at hget
      · rename_i task' hfind
        split at hget
        · simp at hget
        · rw [Except.ok.injEq] at hget
          subst hget
          have hp := List.find?_some hfind
          exact ⟨List.mem_of_find?_eq_some hfind, by simpa using hp⟩
    split at hcall
    · simp at hcall
    · split at hcall
      · simp at hcall
      · split at hcall
        · rename_i o ho
          simp only [Except.ok.injEq, Prod.mk.injEq] at hcall
          exact ⟨task, htaskfacts.1, htaskfacts.2, Or.inl ⟨o, ho, hcall.1.symm⟩⟩
        · rename_i ho
          simp only [Except.ok.injEq, Prod.mk.injEq] at hcall
          exact ⟨task, htaskfacts.1, htaskfacts.2, Or.inr ⟨ho, hcall.1.symm⟩⟩

/-- Successful reorderTasksInColumn calls and their resulting state. -/
theorem reorder_ok_shape (db : DB) (columnId : Nat) (dto : ReorderTasksDto) (userId : Nat)
    (db2 : DB) (msg : String)
    (hcall : reorderTasksInColumn db columnId dto userId = .ok (db2, msg)) :
    db2 = { db with tasks := applyReorder columnId dto.taskIds 0 db.tasks } := by
  unfold reorderTasksInColumn at hcall
  split at hcall
  · simp at hcall
  · split at hcall
    · simp at hcall
    · simp only [Except.ok.injEq, Prod.mk.injEq] at hcall
      exact hcall.1.symm

/-- Image of the k-th element under a map, read off from the image list. -/
theorem get_of_map_eq {α β : Type} (f : α → β) (l : List α) (v : List β)
    (h : l.map f = v) (k : Nat) (hk : k < l.length) (d : β) :
    f (l.get ⟨k, hk⟩) = v.getD k d := by
  subst h
  have hk' : k < (l.map f).length := by simpa using hk
  rw [List.getD_eq_get _ d hk', List.get_map]

/-- C1: a successful moveTask with an explicit order sets the moved task's
column and order to the requested values, keeps the set of stored ids, and
renumbers the other tasks of the target column — listed by increasing
previous order — densely, the k-th receiving k below the explicit order
and k+1 from the explicit order on (the reserved slot is skipped). -/
theorem C1_moveTask_explicit_renumbering
    (db : DB) (taskId : Nat) (dto : MoveTaskDto) (userId o : Nat) (db2 : DB) (msg : String)
    (hids : (db.tasks.map (·.id)).Nodup)
    (ho : dto.newOrder = some o)
    (hord : ((db.tasks.filter (fun t => t.columnId == dto.targetColumnId && t.id != taskId)).map
      (·.order)).Nodup)
    (hcall : moveTask db taskId dto userId = .ok (db2, msg)) :
    (∀ t ∈ db2.tasks, t.id = taskId → t.columnId = dto.targetColumnId ∧ t.order = o) ∧
    db2.tasks.map (·.id) = db.tasks.map (·.id) ∧
    (∀ k, ∀ hk : k < (otherColumnTasks db dto.targetColumnId taskId).length,
      ∀ t ∈ db2.tasks, t.id = ((otherColumnTasks db dto.targetColumnId taskId).get ⟨k, hk⟩).id →
        t.columnId = dto.targetColumnId ∧ t.order = (if k < o then k else k + 1)) := by
  obtain ⟨task, htask, htid, hshape⟩ := moveTask_ok_shape db taskId dto userId db2 msg hcall
  rcases hshape with ⟨o', ho', hdb2⟩ | ⟨ho', -⟩
  swap
  · rw [ho] at ho'
    exact absurd ho' (by simp)
  rw [ho] at ho'
  have hoo : o = o' := by injection ho'
  subst hoo
  set c := dto.targetColumnId with hc
  set db1 : DB := { db with tasks := db.tasks.map (fun t =>
    if t.id == taskId then { t with columnId := c, order := o } else t) } with hdb1
  have hdb1tasks : db1.tasks = db.tasks.map (fun t =>
      if t.id == taskId then { t with columnId := c, order := o } else t) := by
    rw [hdb1]
  have hids1 : (db1.tasks.map (·.id)).Nodup := by
    rw [hdb1tasks, colUpdate_ids]
    exact hids
  set F1 := sortByOrder (db1.tasks.filter (fun t => t.columnId == c)) with hF1
  set assigns := helperAssign F1 taskId o 0 with hassigns
  set os1 := F1.filter (fun t => t.id != taskId) with hos1
  have hdb2tasks : db2.tasks = db1.tasks.map (applyAssigns assigns) := by
    rw [hdb2]
    rw [helper_tasks]
  have hkeys1 : assigns.map Prod.fst = os1.map (·.id) := helperAssign_fst F1 taskId o 0
  have hF1ids : (F1.map (·.id)).Nodup := by
    have hFp : List.Perm (db1.tasks.filter (fun t => t.columnId == c)) F1 :=
      (List.perm_insertionSort _ _).symm
    refine (hFp.map (·.id)).nodup ?_
    exact List.Nodup.sublist ((List.filter_sublist _).map _) hids1
  have hosids : (os1.map (·.id)).Nodup :=
    List.Nodup.sublist ((List.filter_sublist _).map _) hF1ids
  have hkeysnodup : (assigns.map Prod.fst).Nodup := by
    rw [hkeys1]
    exact hosids
  have htid_not : taskId ∉ assigns.map Prod.fst := by
    rw [hkeys1]
    intro hmem
    obtain ⟨t', ht', hteq⟩ := List.mem_map.mp hmem
    rw [hos1, List.mem_filter] at ht'
    have := ht'.2
    simp [bne, hteq] at this
  -- conclusion 1
  have hconc1 : ∀ t ∈ db2.tasks, t.id = taskId → t.columnId = c ∧ t.order = o := by
    intro t ht htid'
    rw [hdb2tasks] at ht
    obtain ⟨s, hs, rfl⟩ := List.mem_map.mp ht
    rw [hdb1tasks] at hs
    obtain ⟨s0, hs0, rfl⟩ := List.mem_map.mp hs
    by_cases hbeq : (s0.id == taskId) = true
    · rw [if_pos hbeq] at htid' ⊢
      have huntouched : applyAssigns assigns { s0 with columnId := c, order := o }
          = { s0 with columnId := c, order := o } := by
        apply applyAssigns_untouched
        have : ({ s0 with columnId := c, order := o } : Task).id = taskId := beq_iff_eq.mp hbeq
        rw [this]
        exact htid_not
      rw [huntouched]
      exact ⟨rfl, rfl⟩
    · exfalso
      rw [if_neg hbeq] at htid'
      rw [applyAssigns_id] at htid'
      exact hbeq (beq_iff_eq.mpr htid')
  -- conclusion 2
  have hconc2 : db2.tasks.map (·.id) = db.tasks.map (·.id) := by
    rw [hdb2]
    rw [helper_ids, hdb1tasks, colUpdate_ids]
  -- identification of the helper's other-task list with the claim's list
  have hos_eq : os1 = otherColumnTasks db c taskId := by
    have hsorted1 : os1.Sorted (fun a b => a.order ≤ b.order) := by
      rw [hos1]
      exact List.Sorted.filter _ (List.sorted_insertionSort _ _)
    have hsorted2 : (otherColumnTasks db c taskId).Sorted (fun a b => a.order ≤ b.order) :=
      List.sorted_insertionSort _ _
    have hpermA : List.Perm os1 (db.tasks.filter (fun t => t.columnId == c && t.id != taskId)) := by
      have h1 : List.Perm os1 ((db1.tasks.filter (fun t => t.columnId == c)).filter
          (fun t => t.id != taskId)) := by
        rw [hos1]
        exact (List.perm_insertionSort _ _).filter _
      have h2 : (db1.tasks.filter (fun t => t.columnId == c)).filter (fun t => t.id != taskId)
          = db1.tasks.filter (fun t => t.columnId == c && t.id != taskId) := by
        rw [List.filter_filter]
        apply List.filter_congr
        intro t _
        exact Bool.and_comm _ _
      have h3 : db1.tasks.filter (fun t => t.columnId == c && t.id != taskId)
          = db.tasks.filter (fun t => t.columnId == c && t.id != taskId) := by
        rw [hdb1tasks]
        exact colUpdate_filter_ne db taskId c o
      rw [h2, h3] at h1
      exact h1
    have hpermB : List.Perm os1 (otherColumnTasks db c taskId) := by
      refine hpermA.trans ?_
      exact (List.perm_insertionSort _ _).symm
    have hnod : (os1.map (·.order)).Nodup := by
      refine ((hpermA.map (·.order)).symm).nodup ?_
      exact hord
    exact eq_of_perm_sorted_orders os1 (otherColumnTasks db c taskId) hpermB hsorted1
      hsorted2 hnod
  -- conclusion 3, stated over the helper's list first
  have hmapg : os1.map (fun t => (applyAssigns assigns t).order)
      = (List.range os1.length).map (skipBump o 0) := by
    rw [map_applyAssigns_eq_vals assigns os1 hkeys1 hkeysnodup]
    exact helperAssign_snd F1 taskId o 0
  have hconc3 : ∀ k, ∀ hk : k < os1.length, ∀ t ∈ db2.tasks,
      t.id = (os1.get ⟨k, hk⟩).id →
      t.columnId = c ∧ t.order = (if k < o then k else k + 1) := by
    intro k hk t ht htid'
    have hx : os1.get ⟨k, hk⟩ ∈ os1 := List.get_mem _ _ _
    have hx2 : os1.get ⟨k, hk⟩ ∈ F1.filter (fun t => t.id != taskId) := hx
    have hxF1 : os1.get ⟨k, hk⟩ ∈ F1 := (List.mem_filter.mp hx2).1
    have hxF1b : os1.get ⟨k, hk⟩ ∈ db1.tasks.filter (fun t => t.columnId == c) := by
      have h7 : os1.get ⟨k, hk⟩ ∈ sortByOrder (db1.tasks.filter (fun t => t.columnId == c)) :=
        hxF1
      rw [sortByOrder, List.mem_insertionSort] at h7
      exact h7
    have hxdb1 : os1.get ⟨k, hk⟩ ∈ db1.tasks ∧ (os1.get ⟨k, hk⟩).columnId = c :=
      ⟨(List.mem_filter.mp hxF1b).1, beq_iff_eq.mp (List.mem_filter.mp hxF1b).2⟩
    rw [hdb2tasks] at ht
    obtain ⟨s, hs, rfl⟩ := List.mem_map.mp ht
    rw [applyAssigns_id] at htid'
    have hseq : s = os1.get ⟨k, hk⟩ := eq_of_mem_id db1.tasks hids1 s hs _ hxdb1.1 htid'
    subst hseq
    constructor
    · rw [applyAssigns_columnId]
      exact hxdb1.2
    · have h5 := get_of_map_eq (fun t => (applyAssigns assigns t).order) os1
        ((List.range os1.length).map (skipBump o 0)) hmapg k hk 0
      have h6 := get_of_map_eq (skipBump o 0) (List.range os1.length)
        ((List.range os1.length).map (skipBump o 0)) rfl k (by simpa using hk) 0
      rw [List.get_range] at h6
      rw [h5, ← h6, skipBump_zero]
  refine ⟨hconc1, hconc2, ?_⟩
  intro k hk t ht htid'
  have hk' : k < os1.length := by rw [hos_eq]; exact hk
  have e1 : (otherColumnTasks db c taskId).get ⟨k, hk⟩
      = (otherColumnTasks db c taskId).getD k task0 := (List.getD_eq_get _ task0 hk).symm
  have e2 : os1.get ⟨k, hk'⟩ = os1.getD k task0 := (List.getD_eq_get _ task0 hk').symm
  have e3 : os1.getD k task0 = (otherColumnTasks db c taskId).getD k task0 := by rw [hos_eq]
  refine hconc3 k hk' t ht ?_
  rw [htid', e1, ← e3, e2]

/-- C1, witness: the specification's worked example — column with A, B, C
at orders 0, 1, 2; moving C to explicit order 0 yields C=0, A=1, B=2. -/
theorem C1_witness :
    (∀ t ∈ dbC1res.tasks, t.id = 3 → t.columnId = 1 ∧ t.order = 0) ∧
    (∀ t ∈ dbC1res.tasks, t.id = 1 → t.order = 1) ∧
    (∀ t ∈ dbC1res.tasks, t.id = 2 → t.order = 2) := by
  have h := C1_moveTask_explicit_renumbering dbC1 3 ⟨1, some 0⟩ 1 0 dbC1res
    "Task moved successfully" (by decide) rfl (by decide) (by decide)
  refine ⟨h.1, ?_, ?_⟩
  · intro t ht htid
    have hk : (0 : Nat) < (otherColumnTasks dbC1 1 3).length := by decide
    have hid : ((otherColumnTasks dbC1 1 3).get ⟨0, hk⟩).id = 1 := by rfl
    have h8 := (h.2.2 0 hk t ht (by rw [htid, hid])).2
    simpa using h8
  · intro t ht htid
    have hk : (1 : Nat) < (otherColumnTasks dbC1 1 3).length := by decide
    have hid : ((otherColumnTasks dbC1 1 3).get ⟨1, hk⟩).id = 2 := by rfl
    have h8 := (h.2.2 1 hk t ht (by rw [htid, hid])).2
    simpa using h8

/-- Closed form of the reorder update loop for duplicate-free id lists:
each listed task of the column receives the index of its id, everything
else is untouched. -/
theorem applyReorder_eq_map (c : Nat) : ∀ (tids : List Nat) (i : Nat) (ts : List Task),
    tids.Nodup →
    applyReorder c tids i ts = ts.map (fun t =>
      if t.columnId = c ∧ t.id ∈ tids then { t with order := i + tids.indexOf t.id } else t) := by
  intro tids
  induction tids with
  | nil =>
    intro i ts _
    simp only [applyReorder, List.not_mem_nil, and_false, if_false]
    rw [show (fun t : Task => t) = id from rfl, List.map_id]
  | cons tid rest ih =>
    intro i ts hnodup
    rw [List.nodup_cons] at hnodup
    simp only [applyReorder]
    rw [ih (i + 1) _ hnodup.2, List.map_map]
    apply List.map_congr_left
    intro t _
    simp only [Function.comp]
    by_cases hc : t.columnId = c
    · by_cases hid : t.id = tid
      · have hcnd : (t.id == tid && t.columnId == c) = true := by simp [hid, hc]
        rw [if_pos hcnd]
        have h1 : ¬(({ t with order := i } : Task).columnId = c
            ∧ ({ t with order := i } : Task).id ∈ rest) := by
          intro hcontra
          exact hnodup.1 (hid ▸ hcontra.2)
        rw [if_neg h1]
        have h2 : t.columnId = c ∧ t.id ∈ tid :: rest :=
          ⟨hc, by rw [hid]; exact List.mem_cons_self _ _⟩
        rw [if_pos h2, hid, List.indexOf_cons_self, Nat.add_zero]
      · have hcnd : (t.id == tid && t.columnId == c) = false := by
          rw [Bool.and_eq_false_iff]
          exact Or.inl (beq_eq_false_iff_ne.mpr hid)
        rw [hcnd]
        simp only [Bool.false_eq_true, if_false]
        by_cases hmem : t.id ∈ rest
        · have h2 : t.columnId = c ∧ t.id ∈ rest := ⟨hc, hmem⟩
          have h3 : t.columnId = c ∧ t.id ∈ tid :: rest := ⟨hc, List.mem_cons_of_mem _ hmem⟩
          rw [if_pos h2, if_pos h3]
          have h4 : (tid :: rest).indexOf t.id = (rest.indexOf t.id).succ :=
            List.indexOf_cons_ne _ (Ne.symm hid)
          rw [h4]
          have h5 : i + 1 + rest.indexOf t.id = i + (rest.indexOf t.id).succ := by omega
          rw [h5]
        · have h2 : ¬(t.columnId = c ∧ t.id ∈ rest) := fun h => hmem h.2
          have h3 : ¬(t.columnId = c ∧ t.id ∈ tid :: rest) := by
            intro h
            rcases List.mem_cons.mp h.2 with he | hm
            · exact hid he
            · exact hmem hm
          rw [if_neg h2, if_neg h3]
    · have hcnd : (t.id == tid && t.columnId == c) = false := by
        rw [Bool.and_eq_false_iff]
        exact Or.inr (beq_eq_false_iff_ne.mpr hc)
      rw [hcnd]
      simp only [Bool.false_eq_true, if_false]
      rw [if_neg (fun h => hc h.1), if_neg (fun h => hc h.1)]

/-- When the moved task already sits in column c, the update commutes with
the column filter. -/
theorem colUpdate_filter_same (db : DB) (tid c o : Nat) (task : Task) (htask : task ∈ db.tasks)
    (hid : task.id = tid) (hcol : task.columnId = c) (hids : (db.tasks.map (·.id)).Nodup) :
    (db.tasks.map (fun t =>
      if t.id == tid then { t with columnId := c, order := o } else t)).filter
        (fun t => t.columnId == c)
      = (db.tasks.filter (fun t => t.columnId == c)).map (fun t =>
          if t.id == tid then { t with columnId := c, order := o } else t) := by
  rw [List.filter_map]
  congr 1
  apply List.filter_congr
  intro t ht
  simp only [Function.comp]
  by_cases h : (t.id == tid) = true
  · have hteq : t = task := eq_of_mem_id db.tasks hids t ht task htask
      ((beq_iff_eq.mp h).trans hid.symm)
    subst hteq
    rw [if_pos h]
    simp [hcol]
  · rw [if_neg h]

/-- A column hosting no task is trivially dense. -/
theorem denseColumn_of_no_tasks (db : DB) (c : Nat)
    (h : ∀ t ∈ db.tasks, t.columnId ≠ c) : denseColumn db c := by
  have he : activeColOrders db c = [] := by
    unfold activeColOrders
    rw [List.filter_eq_nil_iff.mpr ?_]
    · rfl
    · intro t ht hcontra
      rw [Bool.and_eq_true] at hcontra
      exact h t ht (beq_iff_eq.mp hcontra.1)
  rw [denseColumn, he]
  exact List.Perm.refl _

/-- Closed form of the reorder update loop started at index zero. -/
theorem applyReorder_eq_map0 (c : Nat) (tids : List Nat) (ts : List Task) (h : tids.Nodup) :
    applyReorder c tids 0 ts = ts.map (fun t =>
      if t.columnId = c ∧ t.id ∈ tids then { t with order := tids.indexOf t.id } else t) := by
  rw [applyReorder_eq_map c tids 0 ts h]
  apply List.map_congr_left
  intro t _
  by_cases hc : t.columnId = c ∧ t.id ∈ tids
  · rw [if_pos hc, if_pos hc, Nat.zero_add]
  · rw [if_neg hc, if_neg hc]

/-- A reorder listing exactly the ids of the column preserves distinct
ids, liveness and the density of every column. -/
theorem step_reorder (db : DB) (columnId : Nat) (dto : ReorderTasksDto) (userId : Nat)
    (hids : (db.tasks.map (·.id)).Nodup)
    (hact : ∀ t ∈ db.tasks, t.deletedAt = none)
    (hdense : ∀ c, denseColumn db c)
    (hgood : goodOp db (.reorder columnId dto userId)) :
    ((applyOp db (.reorder columnId dto userId)).tasks.map (·.id)).Nodup ∧
    (∀ t ∈ (applyOp db (.reorder columnId dto userId)).tasks, t.deletedAt = none) ∧
    (∀ c, denseColumn (applyOp db (.reorder columnId dto userId)) c) := by
  have hperm : List.Perm dto.taskIds
      ((db.tasks.filter (fun t => t.columnId == columnId)).map (·.id)) := hgood
  cases hres : reorderTasksInColumn db columnId dto userId with
  | error e =>
    have happ : applyOp db (.reorder columnId dto userId) = db := by
      simp [applyOp, resultDB, hres]
    rw [happ]
    exact ⟨hids, hact, hdense⟩
  | ok p =>
    obtain ⟨db2, msg⟩ := p
    have happ : applyOp db (.reorder columnId dto userId) = db2 := by
      simp [applyOp, resultDB, hres]
    have hshape := reorder_ok_shape db columnId dto userId db2 msg hres
    have hcolids : ((db.tasks.filter (fun t => t.columnId == columnId)).map (·.id)).Nodup :=
      List.Nodup.sublist ((List.filter_sublist _).map _) hids
    have htids : dto.taskIds.Nodup := hperm.symm.nodup hcolids
    rw [happ, hshape, applyReorder_eq_map0 columnId dto.taskIds db.tasks htids]
    have hgid : ∀ t : Task, (if t.columnId = columnId ∧ t.id ∈ dto.taskIds then
        ({ t with order := dto.taskIds.indexOf t.id } : Task) else t).id = t.id := by
      intro t
      by_cases h : t.columnId = columnId ∧ t.id ∈ dto.taskIds
      · rw [if_pos h]
      · rw [if_neg h]
    have hgcol : ∀ t : Task, (if t.columnId = columnId ∧ t.id ∈ dto.taskIds then
        ({ t with order := dto.taskIds.indexOf t.id } : Task) else t).columnId = t.columnId := by
      intro t
      by_cases h : t.columnId = columnId ∧ t.id ∈ dto.taskIds
      · rw [if_pos h]
      · rw [if_neg h]
    have hgdel : ∀ t : Task, (if t.columnId = columnId ∧ t.id ∈ dto.taskIds then
        ({ t with order := dto.taskIds.indexOf t.id } : Task) else t).deletedAt = t.deletedAt := by
      intro t
      by_cases h : t.columnId = columnId ∧ t.id ∈ dto.taskIds
      · rw [if_pos h]
      · rw [if_neg h]
    refine ⟨?_, ?_, ?_⟩
    · show ((db.tasks.map (fun t : Task => if t.columnId = columnId ∧ t.id ∈ dto.taskIds then
        ({ t with order := dto.taskIds.indexOf t.id } : Task) else t)).map (·.id)).Nodup
      rw [List.map_map]
      have he : ∀ t ∈ db.tasks, ((·.id) ∘ (fun t : Task =>
          if t.columnId = columnId ∧ t.id ∈ dto.taskIds then
            ({ t with order := dto.taskIds.indexOf t.id } : Task) else t)) t
          = (fun t : Task => t.id) t := fun t _ => hgid t
      rw [List.map_congr_left he]
      exact hids
    · intro t ht
      obtain ⟨t0, ht0, rfl⟩ := List.mem_map.mp ht
      exact (hgdel t0).trans (hact t0 ht0)
    · intro c'
      have hact2 : ∀ t ∈ ({ db with tasks := db.tasks.map (fun t : Task =>
          if t.columnId = columnId ∧ t.id ∈ dto.taskIds then
            ({ t with order := dto.taskIds.indexOf t.id } : Task) else t) } : DB).tasks,
          t.deletedAt = none := by
        intro t ht
        obtain ⟨t0, ht0, rfl⟩ := List.mem_map.mp ht
        exact (hgdel t0).trans (hact t0 ht0)
      unfold denseColumn
      rw [activeColOrders_eq _ _ hact2]
      have hfcomm : (db.tasks.map (fun t : Task =>
          if t.columnId = columnId ∧ t.id ∈ dto.taskIds then
            ({ t with order := dto.taskIds.indexOf t.id } : Task) else t)).filter
          (fun t => t.columnId == c')
          = (db.tasks.filter (fun t => t.columnId == c')).map (fun t : Task =>
            if t.columnId = columnId ∧ t.id ∈ dto.taskIds then
              ({ t with order := dto.taskIds.indexOf t.id } : Task) else t) := by
        rw [List.filter_map]
        congr 1
        apply List.filter_congr
        intro t _
        simp only [Function.comp]
        rw [hgcol]
      have hco : colOrders { db with tasks := db.tasks.map (fun t : Task =>
          if t.columnId = columnId ∧ t.id ∈ dto.taskIds then
            ({ t with order := dto.taskIds.indexOf t.id } : Task) else t) } c'
          = ((db.tasks.filter (fun t => t.columnId == c')).map (fun t : Task =>
            if t.columnId = columnId ∧ t.id ∈ dto.taskIds then
              ({ t with order := dto.taskIds.indexOf t.id } : Task) else t)).map (·.order) := by
        unfold colOrders
        rw [show ({ db with tasks := db.tasks.map (fun t : Task =>
          if t.columnId = columnId ∧ t.id ∈ dto.taskIds then
            ({ t with order := dto.taskIds.indexOf t.id } : Task) else t) } : DB).tasks
          = db.tasks.map (fun t : Task =>
            if t.columnId = columnId ∧ t.id ∈ dto.taskIds then
              ({ t with order := dto.taskIds.indexOf t.id } : Task) else t) from rfl]
        rw [hfcomm]
      rw [hco]
      by_cases hcc : c' = columnId
      · subst hcc
        rw [List.map_map]
        have h2 : (db.tasks.filter (fun t => t.columnId == c')).map ((·.order) ∘ (fun t : Task =>
            if t.columnId = c' ∧ t.id ∈ dto.taskIds then
              ({ t with order := dto.taskIds.indexOf t.id } : Task) else t))
            = ((db.tasks.filter (fun t => t.columnId == c')).map (·.id)).map
              (fun a => dto.taskIds.indexOf a) := by
          rw [List.map_map]
          apply List.map_congr_left
          intro t ht
          have htf := ht
          rw [List.mem_filter] at htf
          have hcol : t.columnId = c' := beq_iff_eq.mp htf.2
          have hmem : t.id ∈ dto.taskIds :=
            hperm.mem_iff.mpr (List.mem_map.mpr ⟨t, ht, rfl⟩)
          simp only [Function.comp]
          rw [if_pos ⟨hcol, hmem⟩]
        rw [h2]
        have h4 : List.Perm (((db.tasks.filter (fun t => t.columnId == c')).map (·.id)).map
            (fun a => dto.taskIds.indexOf a))
            (dto.taskIds.map (fun a => dto.taskIds.indexOf a)) :=
          hperm.symm.map _
        have h5 : dto.taskIds.map (fun a => dto.taskIds.indexOf a)
            = List.range dto.taskIds.length := map_indexOf_self _ htids
        have hlen : (((db.tasks.filter (fun t => t.columnId == c')).map (·.id)).map
            (fun a => dto.taskIds.indexOf a)).length = dto.taskIds.length := by
          rw [List.length_map, List.length_map]
          have h6 := hperm.length_eq
          rw [List.length_map] at h6
          omega
        rw [hlen]
        exact h4.trans (by rw [h5])
      · have hpt : ∀ t ∈ db.tasks.filter (fun t => t.columnId == c'),
            (fun t : Task => if t.columnId = columnId ∧ t.id ∈ dto.taskIds then
              ({ t with order := dto.taskIds.indexOf t.id } : Task) else t) t = id t := by
          intro t ht
          rw [List.mem_filter] at ht
          simp only [id_eq]
          rw [if_neg]
          intro hcontra
          exact hcc ((beq_iff_eq.mp ht.2).symm.trans hcontra.1)
        rw [List.map_congr_left hpt, List.map_id]
        have hd := hdense c'
        unfold denseColumn at hd
        rw [activeColOrders_eq db c' hact] at hd
        exact hd

/-- A same-column move with an explicit order below the column size
preserves distinct ids, liveness and the density of every column. -/
theorem step_move (db : DB) (taskId : Nat) (dto : MoveTaskDto) (userId : Nat)
    (hids : (db.tasks.map (·.id)).Nodup)
    (hact : ∀ t ∈ db.tasks, t.deletedAt = none)
    (hdense : ∀ c, denseColumn db c)
    (hgood : goodOp db (.move taskId dto userId)) :
    ((applyOp db (.move taskId dto userId)).tasks.map (·.id)).Nodup ∧
    (∀ t ∈ (applyOp db (.move taskId dto userId)).tasks, t.deletedAt = none) ∧
    (∀ c, denseColumn (applyOp db (.move taskId dto userId)) c) := by
  obtain ⟨t0, ht0, ht0id, htgt, o, ho, holt⟩ := hgood
  cases hres : moveTask db taskId dto userId with
  | error e =>
    have happ : applyOp db (.move taskId dto userId) = db := by
      simp [applyOp, resultDB, hres]
    rw [happ]
    exact ⟨hids, hact, hdense⟩
  | ok p =>
    obtain ⟨db2, msg⟩ := p
    have happ : applyOp db (.move taskId dto userId) = db2 := by
      simp [applyOp, resultDB, hres]
    obtain ⟨task, htask, htaskid, hshape⟩ := moveTask_ok_shape db taskId dto userId db2 msg hres
    have hteq : t0 = task := eq_of_mem_id db.tasks hids t0 ht0 task htask
      (ht0id.trans htaskid.symm)
    subst hteq
    rcases hshape with ⟨o', ho', hdb2⟩ | ⟨ho', -⟩
    swap
    · rw [ho] at ho'
      exact absurd ho' (by simp)
    rw [ho] at ho'
    have hoo : o = o' := by injection ho'
    subst hoo
    set c := dto.targetColumnId with hc
    set db1 : DB := { db with tasks := db.tasks.map (fun t =>
      if t.id == taskId then { t with columnId := c, order := o } else t) } with hdb1
    have hdb1tasks : db1.tasks = db.tasks.map (fun t =>
        if t.id == taskId then { t with columnId := c, order := o } else t) := by
      rw [hdb1]
    have hids1 : (db1.tasks.map (·.id)).Nodup := by
      rw [hdb1tasks, colUpdate_ids]
      exact hids
    have hact1 : ∀ t ∈ db1.tasks, t.deletedAt = none := by
      rw [hdb1tasks]
      exact colUpdate_allActive db taskId c o hact
    have hcol : t0.columnId = c := htgt.symm
    rw [hcol] at holt
    have hmvmem : ({ t0 with columnId := c, order := o } : Task) ∈ db1.tasks := by
      rw [hdb1tasks]
      exact colUpdate_mv_mem db taskId c o t0 ht0 ht0id
    have hhco := helper_col_orders db1 c taskId o hids1
      ({ t0 with columnId := c, order := o } : Task) hmvmem ht0id rfl rfl
    have hsame : db1.tasks.filter (fun t => t.columnId == c)
        = (db.tasks.filter (fun t => t.columnId == c)).map (fun t =>
            if t.id == taskId then { t with columnId := c, order := o } else t) := by
      rw [hdb1tasks]
      exact colUpdate_filter_same db taskId c o t0 ht0 ht0id hcol hids
    have hN1 : (db1.tasks.filter (fun t => t.columnId == c)).length
        = (db.tasks.filter (fun t => t.columnId == c)).length := by
      rw [hsame, List.length_map]
    have hperm2 : List.Perm (colOrders db2 c)
        (o :: (List.range ((db1.tasks.filter (fun t => t.columnId == c)).length - 1)).map
          (fun k => if k < o then k else k + 1)) := by
      rw [hdb2]
      exact hhco.1
    have hN1pos : 0 < (db1.tasks.filter (fun t => t.columnId == c)).length := hhco.2
    have hoL : o ≤ (db1.tasks.filter (fun t => t.columnId == c)).length - 1 := by
      omega
    have hperm3 := hperm2.trans
      (perm_skip ((db1.tasks.filter (fun t => t.columnId == c)).length - 1) o hoL)
    have hlen4 : (db1.tasks.filter (fun t => t.columnId == c)).length - 1 + 1
        = (db1.tasks.filter (fun t => t.columnId == c)).length := by omega
    rw [hlen4] at hperm3
    rw [happ]
    have hact2 : ∀ t ∈ db2.tasks, t.deletedAt = none := by
      rw [hdb2]
      exact helper_allActive db1 c taskId o hact1
    refine ⟨?_, hact2, ?_⟩
    · rw [hdb2, helper_ids, hdb1tasks, colUpdate_ids]
      exact hids
    intro c'
    unfold denseColumn
    rw [activeColOrders_eq db2 c' hact2]
    by_cases hcc : c' = c
    · subst hcc
      have hlen5 : (colOrders db2 c).length
          = (db1.tasks.filter (fun t => t.columnId == c)).length := by
        have h6 := hperm3.length_eq
        rw [List.length_range] at h6
        exact h6
      rw [hlen5]
      exact hperm3
    · have hfil : db2.tasks.filter (fun t => t.columnId == c')
          = db.tasks.filter (fun t => t.columnId == c') := by
        have h1 : db2.tasks.filter (fun t => t.columnId == c')
            = db1.tasks.filter (fun t => t.columnId == c') := by
          rw [hdb2]
          exact helper_other_cols db1 c taskId o c' hcc hids1
        rw [h1, hdb1tasks]
        exact colUpdate_filter_other db taskId c o c' hcc t0 ht0 ht0id hcol hids
      have hco2 : colOrders db2 c' = colOrders db c' := by
        unfold colOrders
        rw [hfil]
      rw [hco2]
      have hd := hdense c'
      unfold denseColumn at hd
      rw [activeColOrders_eq db c' hact] at hd
      exact hd

/-- Every sequence of restricted drag-and-drop calls preserves distinct
ids, liveness and the density of every column. -/
theorem goodOps_inv (ops : List BoardOp) : ∀ (db : DB),
    (db.tasks.map (·.id)).Nodup →
    (∀ t ∈ db.tasks, t.deletedAt = none) →
    (∀ c, denseColumn db c) →
    goodOps db ops →
    ((applyOps db ops).tasks.map (·.id)).Nodup ∧
    (∀ t ∈ (applyOps db ops).tasks, t.deletedAt = none) ∧
    (∀ c, denseColumn (applyOps db ops) c) := by
  induction ops with
  | nil =>
    intro db h1 h2 h3 _
    exact ⟨h1, h2, h3⟩
  | cons op rest ih =>
    intro db h1 h2 h3 hg
    obtain ⟨hg1, hg2⟩ : goodOp db op ∧ goodOps (applyOp db op) rest := hg
    have hstep : ((applyOp db op).tasks.map (·.id)).Nodup ∧
        (∀ t ∈ (applyOp db op).tasks, t.deletedAt = none) ∧
        (∀ c, denseColumn (applyOp db op) c) := by
      cases op with
      | move taskId dto userId => exact step_move db taskId dto userId h1 h2 h3 hg1
      | reorder columnId dto userId => exact step_reorder db columnId dto userId h1 h2 h3 hg1
    have happ : applyOps db (op :: rest) = applyOps (applyOp db op) rest := rfl
    rw [happ]
    exact ih (applyOp db op) hstep.1 hstep.2.1 hstep.2.2 hg2

/-- C2 (amended): when every moveTask call keeps the task in its current
column with an explicit order below that column's task count, and every
reorderTasksInColumn call lists exactly the ids of the column's tasks, a
store with duplicate-free task ids, no soft-deleted tasks and dense columns
keeps every column dense after the calls settle. -/
theorem C2_amended_density (db : DB) (ops : List BoardOp)
    (hids : (db.tasks.map (·.id)).Nodup)
    (hact : ∀ t ∈ db.tasks, t.deletedAt = none)
    (hdense : ∀ c, denseColumn db c)
    (hgood : goodOps db ops) :
    ∀ c, denseColumn (applyOps db ops) c :=
  (goodOps_inv ops db hids hact hdense hgood).2.2

/-- C2, witness: the worked board with tasks A, B, C at orders 0, 1, 2 in
column 1, after a full-permutation reorder followed by an in-range
same-column move, still has column 1 dense. -/
theorem C2_witness : denseColumn (applyOps dbC1 opsC2w) 1 := by
  have hdense : ∀ c, denseColumn dbC1 c := by
    intro c
    by_cases hc : c = 1
    · subst hc
      decide
    · apply denseColumn_of_no_tasks
      intro t ht
      have h1 : t.columnId = 1 := by
        simp only [dbC1, List.mem_cons, List.not_mem_nil, or_false] at ht
        rcases ht with rfl | rfl | rfl <;> rfl
      rw [h1]
      exact fun h => hc h.symm
  have hgood : goodOps dbC1 opsC2w := by
    refine ⟨?_, ?_, trivial⟩
    · exact (by decide : List.Perm [3, 1, 2]
        ((dbC1.tasks.filter (fun t => t.columnId == 1)).map (·.id)))
    · exact ⟨⟨3, 1, 1, 1, 1, none, "C", Priority.medium, 0, none⟩, by decide, rfl, rfl,
        0, rfl, by decide⟩
  exact C2_amended_density dbC1 opsC2w (by decide) (by decide) hdense hgood 1

end Kanban
